import Mathlib

/-!
Verification development for `gitlab_migration.py`.

The script migrates a tree of GitLab groups and projects from a source
instance to a target instance.  This file gives a shallow embedding of the
orchestration core:

* `create_target_group_structure` (source lines 82-121): walks the
  slash-separated group path, fetching or creating each prefix group.
* `migrate_project` (source lines 124-274): the per-project worker
  (existence/overwrite check by name, source fetch, check by canonical
  path, export wait loop, size-based timeout escalation, the call of
  the import endpoint, its poll loop, and the outer exception handler).
* `migrate_group` (source lines 277-320): the recursion driver / the
  coordinator that tallies per-group success and failure counts and then
  recurses into subgroups.

Modelling conventions:

* The external GitLab instances are inputs.  The target instance's project
  store is a list of project full paths (`projects.get` succeeds exactly on
  the stored paths, `delete` removes a path, a successful call of
  `import_project` adds a path).  Error injection points that the claims
  need (a lookup raising something other than `GitlabGetError`, a failing
  fetch of the full source project, a failing import call) are explicit
  `Option`/`Except` fields of `WorkerEnv`.
* Python exceptions escaping a function are the `PyResult.exn` outcome;
  returning `None` is `PyResult.ok none`; returning the imported project is
  `PyResult.ok (some id)`.
* The unbounded polling loops (source lines 201-206 and 262-267) are
  modelled with explicit fuel; exhausting the fuel is `PyResult.diverge`.
  A status stream `Nat → JobStatus` gives the job status observed after
  each refresh.
* Log calls that the claims observe are recorded as a `LogEvent` list.
* The thread pool (`ThreadPoolExecutor`, lines 294-309) is modelled by
  running the workers of one batch sequentially in submission order; the
  cross-level sequencing that the claims are about (the batch is fully
  drained before any subgroup starts) is preserved exactly.
-/

/-- Job status as compared against the string literals in the source
(`export_status`/`import_status` being `'finished'` or `'failed'`). -/
inductive JobStatus where
  | queued
  | started
  | finished
  | failed
deriving DecidableEq

/-- Result of a Python function call: a returned value, an escaping
exception, or divergence (an infinite polling loop). -/
inductive PyResult (α : Type) where
  | ok (a : α)
  | exn (msg : String)
  | diverge
deriving DecidableEq

/-- The logger calls of `migrate_project` and `migrate_group` that the
claims observe, one constructor per `logger.…` call site. -/
inductive LogEvent where
  | startMigrate (name : String)
  | deleteExistingName (name : String)
  | skipExistingName (name : String)
  | notFoundProceed (name : String)
  | nameCheckErrContinue (msg : String)
  | nameCheckErrFail (msg : String)
  | deleteExistingPath (path : String)
  | skipExistingPath (path : String)
  | pathCheckErr (msg : String)
  | exportFailedLog (name : String)
  | exportSizeLog (name : String) (bytes : Nat)
  | largeFileWarn (bytes : Nat)
  | timeoutRaisedLog (t : Nat)
  | tooLarge413 (name : String)
  | importNoId (name : String)
  | importFailedLog (name : String)
  | migratedLog (path : String)
  | workerErr (msg : String)
deriving DecidableEq

/-- The value returned by `projects.import_project`: some platform versions
return a plain dict (bare identifier), others a project object whose
`import_status` attribute may or may not be present.  For an object, the
status stream gives `import_status` after `n` calls of `refresh` (`f 0` is
the initial attribute value). -/
inductive ImportHandle where
  | dict (pid : Option Nat)
  | obj (pid : Nat) (status : Option (Nat → JobStatus))

/-- External behavior of both GitLab instances during one worker run.
`fpath`/`fname` are the canonical `path`/`name` of the full source project
object fetched by id (source line 174).  The error fields inject the
exception cases the source distinguishes: `nameLookupErr`/`pathLookupErr`
are a `projects.get` raising something other than `GitlabGetError` (the
"not found" case is instead derived from the target state), `fetchErr` is
the source fetch raising, `importResult` is the import call raising or
returning a handle.  `exportStatus n` is the export job status after `n`
refreshes following the initial one at source line 198; `refetchStatus` is
the `import_status` attribute of the full object fetched at source line 259
when the handle was a dict (`none` when the attribute is absent). -/
structure WorkerEnv where
  nameLookupErr : Option String
  fetchErr : Option String
  fpath : String
  fname : String
  pathLookupErr : Option String
  exportStatus : Nat → JobStatus
  exportSizeBytes : Nat
  importResult : Except String ImportHandle
  refetchStatus : Option (Nat → JobStatus)

/-- A project as produced by `source_group.projects.list` (source line
287): the listing object carries `name` and `id`; the rest of the world's
behavior for migrating this project is bundled in `env`. -/
structure ProjInfo where
  id : Nat
  name : String
  env : WorkerEnv

/-- One megabyte, the divisor of `file_size_mb = len(export_file) / (1024 * 1024)`. -/
def MB : Nat := 1048576

/-- Whether the second character list starts with the first. -/
def startsWithChars : List Char → List Char → Bool
  | [], _ => true
  | _ :: _, [] => false
  | a :: as, b :: bs => a = b && startsWithChars as bs

/-- Whether the character list contains `pat` as a contiguous run. -/
def containsChars (pat : List Char) : List Char → Bool
  | [] => pat.isEmpty
  | c :: rest => startsWithChars pat (c :: rest) || containsChars pat rest

/-- The check `'413: Request Entity Too Large' in str(e)` (source line 239):
true when the message contains that substring. -/
def contains413 (m : String) : Bool :=
  containsChars "413: Request Entity Too Large".data m.data

/-- Python's `group_path.split('/')` (source line 88), split out
character by character. -/
def splitSlashAux : List Char → List Char → List String
  | [], acc => [String.mk acc.reverse]
  | c :: rest, acc =>
    if c = '/' then String.mk acc.reverse :: splitSlashAux rest []
    else splitSlashAux rest (c :: acc)

/-- `s.split('/')`: the list of segments between the slashes of `s`. -/
def splitSlash (s : String) : List String := splitSlashAux s.data []

/-- The polling loop shape shared by the export wait (source lines 201-206)
and the import wait (source lines 262-267):

    while status != 'finished':
        sleep; refresh
        if status == 'failed': return None

`f n` is the status observed after `n` refreshes; the loop is entered with
observation index `n`.  `some true` is normal exit (`finished`),
`some false` is the `failed` early return, `none` is fuel exhaustion
(the real loop has no retry cap and blocks forever). -/
def waitJob : Nat → (Nat → JobStatus) → Nat → Option Bool
  | 0, _, _ => none
  | fuel + 1, f, n =>
    if f n ≠ JobStatus.finished then
      if f (n + 1) = JobStatus.failed then some false
      else waitJob fuel f (n + 1)
    else some true

/-- The import wait (source lines 262-267) guarded by
`hasattr(import_project, 'import_status')`: an object without the
attribute never enters the loop and is treated as finished. -/
def pollImport (fuel : Nat) (status : Option (Nat → JobStatus)) : Option Bool :=
  match status with
  | none => some true
  | some f => waitJob fuel f 0

/-- State and log accumulated part way through a worker run. -/
structure MidState where
  st : List String
  log : List LogEvent
deriving DecidableEq

/-- Full observable outcome of one `migrate_project` call.  `state` is the
target instance's project-path store afterwards, `importTimeout` the
`thread_target_gl.timeout` value in effect at the import call (when the
run reaches it), `finalTimeout` that session's timeout when the worker
returns. -/
structure WorkerOut where
  result : PyResult (Option Nat)
  state : List String
  log : List LogEvent
  importTimeout : Option Nat
  finalTimeout : Nat
deriving DecidableEq

/-- An early return of the worker before the import section: `result` with
the current state and log, no timeout ever touched. -/
def earlyOut (timeout0 : Nat) (r : PyResult (Option Nat)) (m : MidState) : WorkerOut :=
  { result := r, state := m.st, log := m.log, importTimeout := none, finalTimeout := timeout0 }

/-- CHECK_NAME (source lines 149-170): look up `{target_group.full_path}/{name}`.
Found with overwrite: delete it (and `time.sleep(3)`), proceed.  Found
without overwrite: log and return `None` (skip).  `GitlabGetError`
(modelled as: the key is not in the target store): log and proceed.  Any
other lookup exception: with overwrite log and still proceed, without
overwrite log and return `None`. -/
def checkNamePhase (timeout0 : Nat) (env : WorkerEnv) (pname key1 : String)
    (overwrite : Bool) (m : MidState) : Sum WorkerOut MidState :=
  match env.nameLookupErr with
  | some msg =>
    if overwrite then
      Sum.inr { st := m.st, log := m.log ++ [LogEvent.nameCheckErrContinue msg] }
    else
      Sum.inl (earlyOut timeout0 (PyResult.ok none)
        { st := m.st, log := m.log ++ [LogEvent.nameCheckErrFail msg] })
  | none =>
    if key1 ∈ m.st then
      if overwrite then
        Sum.inr { st := m.st.erase key1, log := m.log ++ [LogEvent.deleteExistingName pname] }
      else
        Sum.inl (earlyOut timeout0 (PyResult.ok none)
          { st := m.st, log := m.log ++ [LogEvent.skipExistingName pname] })
    else
      Sum.inr { st := m.st, log := m.log ++ [LogEvent.notFoundProceed pname] }

/-- CHECK_PATH (source lines 179-193), run only when the canonical path
differs from the listing name: look up `{target_group.full_path}/{path}`.
Found with overwrite: delete, proceed.  Found without overwrite: log and
return `None`.  `GitlabGetError`: `pass`.  Any other exception: log and
return `None` — note, unlike CHECK_NAME, regardless of `overwrite`. -/
def checkPathPhase (timeout0 : Nat) (env : WorkerEnv) (pname tpath key2 : String)
    (overwrite : Bool) (m : MidState) : Sum WorkerOut MidState :=
  if tpath ≠ pname then
    match env.pathLookupErr with
    | some msg =>
      Sum.inl (earlyOut timeout0 (PyResult.ok none)
        { st := m.st, log := m.log ++ [LogEvent.pathCheckErr msg] })
    | none =>
      if key2 ∈ m.st then
        if overwrite then
          Sum.inr { st := m.st.erase key2, log := m.log ++ [LogEvent.deleteExistingPath tpath] }
        else
          Sum.inl (earlyOut timeout0 (PyResult.ok none)
            { st := m.st, log := m.log ++ [LogEvent.skipExistingPath tpath] })
      else
        Sum.inr m
  else
    Sum.inr m

/-- EXPORT, DOWNLOAD, IMPORT and POLL_IMPORT (source lines 196-270),
entered after both existence checks passed.  The export is created and
refreshed, then the wait loop runs; on `finished` the artifact is
downloaded, its size logged (with a warning above 100 MB), and above
200 MB `thread_target_gl.timeout` is raised to `max original 120` for
the import call; the `except`/`finally` of lines 234-247 restore the original
timeout on every path.  A successful import call stores `key2` on the
target; the returned handle is then either a dict — no id: log and return
`None`; with id: refetch the full object and fall into the poll — or an
object polled directly.  The outer exception handler of lines 272-274
turns the re-raised import exception into a logged `None` return
(`thread_project` is bound at this point). -/
def exportImportPhase (fuel timeout0 : Nat) (env : WorkerEnv) (pname tname key2 : String)
    (m : MidState) : WorkerOut :=
  match waitJob fuel env.exportStatus 0 with
  | none => earlyOut timeout0 PyResult.diverge m
  | some false =>
    earlyOut timeout0 (PyResult.ok none)
      { st := m.st, log := m.log ++ [LogEvent.exportFailedLog tname] }
  | some true =>
    let size := env.exportSizeBytes
    let log3 := m.log ++ [LogEvent.exportSizeLog tname size] ++
      (if 100 * MB < size then [LogEvent.largeFileWarn size] else [])
    let original := timeout0
    let curT := if 200 * MB < size then max original 120 else original
    let log4 := log3 ++ (if 200 * MB < size then [LogEvent.timeoutRaisedLog curT] else [])
    match env.importResult with
    | Except.error msg =>
      { result := PyResult.ok none, state := m.st,
        log := log4 ++ (if contains413 msg then [LogEvent.tooLarge413 tname] else []) ++
          [LogEvent.workerErr msg],
        importTimeout := some curT, finalTimeout := original }
    | Except.ok handle =>
      let st3 := m.st ++ [key2]
      let finish (pid : Nat) : WorkerOut :=
        { result := PyResult.ok (some pid), state := st3,
          log := log4 ++ [LogEvent.migratedLog key2],
          importTimeout := some curT, finalTimeout := original }
      let failPoll : WorkerOut :=
        { result := PyResult.ok none, state := st3,
          log := log4 ++ [LogEvent.importFailedLog pname],
          importTimeout := some curT, finalTimeout := original }
      let divergePoll : WorkerOut :=
        { result := PyResult.diverge, state := st3, log := log4,
          importTimeout := some curT, finalTimeout := original }
      match handle with
      | ImportHandle.dict pid =>
        if pid.getD 0 = 0 then
          { result := PyResult.ok none, state := st3,
            log := log4 ++ [LogEvent.importNoId pname],
            importTimeout := some curT, finalTimeout := original }
        else
          match pollImport fuel env.refetchStatus with
          | none => divergePoll
          | some false => failPoll
          | some true => finish (pid.getD 0)
      | ImportHandle.obj pid status =>
        match pollImport fuel status with
        | none => divergePoll
        | some false => failPoll
        | some true => finish pid

/-- The worker `migrate_project` (source lines 124-274).  `timeout0` is the
timeout both thread-local sessions are created with (line 132/137-139).
The phases chain exactly as in the source; an exception raised by the
fetch of the full source project (line 174) reaches the outer handler of
line 272 before `thread_project` was bound, so the handler's f-string
itself raises and the exception escapes the worker. -/
def migrate_project (fuel timeout0 : Nat) (project : ProjInfo)
    (targetGroupFullPath : String) (overwrite : Bool) (st : List String) : WorkerOut :=
  let pname := project.name
  let env := project.env
  let key1 := targetGroupFullPath ++ "/" ++ pname
  let m0 : MidState := { st := st, log := [LogEvent.startMigrate pname] }
  match checkNamePhase timeout0 env pname key1 overwrite m0 with
  | Sum.inl out => out
  | Sum.inr m1 =>
    match env.fetchErr with
    | some _ =>
      earlyOut timeout0 (PyResult.exn "UnboundLocalError: thread_project") m1
    | none =>
      let tpath := env.fpath
      let tname := env.fname
      let key2 := targetGroupFullPath ++ "/" ++ tpath
      match checkPathPhase timeout0 env pname tpath key2 overwrite m1 with
      | Sum.inl out => out
      | Sum.inr m2 => exportImportPhase fuel timeout0 env pname tname key2 m2

/-- A worker outcome that returned the imported project (a truthy value at
source line 303). -/
def isMigrated (o : WorkerOut) : Bool :=
  match o.result with
  | PyResult.ok (some _) => true
  | _ => false

/-- A worker outcome that took one of the two skip paths (source lines
158-159 and 187-188): it returned `None` after logging a skip. -/
def isSkipped (o : WorkerOut) : Bool :=
  (o.result = PyResult.ok none : Bool) &&
  o.log.any fun e =>
    match e with
    | LogEvent.skipExistingName _ => true
    | LogEvent.skipExistingPath _ => true
    | _ => false

/-- A group on the target instance as the resolver sees it (id, `name`,
`path` segment, `full_path`, `visibility`, `parent_id`). -/
structure GroupNode where
  id : Nat
  name : String
  path : String
  full_path : String
  visibility : String
  parent_id : Option Nat
deriving DecidableEq

/-- The target instance's group store: `groups.get(full_path)` succeeds on
stored nodes, `groups.create` appends a node with the next fresh id. -/
structure GroupState where
  groups : List GroupNode
  nextId : Nat
deriving DecidableEq

/-- The accumulation of `current_path` in the loop of source lines 93-97:
`current_path += f"/{part}"` when non-empty, else `current_path = part`. -/
def accumStep (cur part : String) : String :=
  if cur = "" then part else cur ++ "/" ++ part

/-- `current_path` after walking all the given parts. -/
def accumJoin (cur : String) (parts : List String) : String :=
  parts.foldl accumStep cur

/-- The loop body of `create_target_group_structure` (source lines 93-119)
over the remaining path parts, carrying `current_path` and `parent_group`.
For each part: extend the path, try `groups.get`; on `GitlabGetError`
create the group with the part as both name and path, the call's source
group visibility, and `parent_id` set from `parent_group` except for the
first (parentless) segment.  Returns the last fetched-or-created node. -/
def ctgsAux (vis : String) : List String → String → Option GroupNode → GroupState →
    Option GroupNode × GroupState
  | [], _, parent, gs => (parent, gs)
  | part :: rest, cur, parent, gs =>
    let cur2 := accumStep cur part
    match gs.groups.find? (fun g => g.full_path = cur2) with
    | some g => ctgsAux vis rest cur2 (some g) gs
    | none =>
      let g : GroupNode :=
        { id := gs.nextId, name := part, path := part, full_path := cur2,
          visibility := vis,
          parent_id := match parent with
            | none => none
            | some pg => some pg.id }
      ctgsAux vis rest cur2 (some g) { groups := gs.groups ++ [g], nextId := gs.nextId + 1 }

/-- `create_target_group_structure` (source lines 82-121): split the group
path on `/` and walk it, creating every missing prefix group with the
given source group's visibility; return the final group. -/
def create_target_group_structure (gs : GroupState) (group_path : String)
    (sourceVisibility : String) : Option GroupNode × GroupState :=
  ctgsAux sourceVisibility (splitSlash group_path) "" none gs

/-- A source group subtree: its path segment, its `visibility`, its direct
projects (in listing order) and its direct subgroups (in listing order).
The source instance is read-only; `groups.get` on an accumulated path
returns the corresponding subtree. -/
inductive SrcTree where
  | node (seg : String) (visibility : String) (projects : List ProjInfo) (subs : List SrcTree)

/-- Path segment of a subtree's root. -/
def SrcTree.seg : SrcTree → String
  | .node s _ _ _ => s

/-- Visibility of a subtree's root group. -/
def SrcTree.visibility : SrcTree → String
  | .node _ v _ _ => v

/-- Direct projects of a subtree's root group. -/
def SrcTree.projects : SrcTree → List ProjInfo
  | .node _ _ ps _ => ps

/-- Direct subgroups of a subtree's root group. -/
def SrcTree.subs : SrcTree → List SrcTree
  | .node _ _ _ subs => subs

/-- Observable scheduling events of one run, indexed by the group's path
as a segment list: a group's batch being entered, one worker reaching a
terminal outcome, and the group's whole batch having drained. -/
inductive Event where
  | groupEnter (segs : List String)
  | projectDone (segs : List String) (pid : Nat)
  | batchDone (segs : List String)
deriving DecidableEq

/-- The group the event belongs to. -/
def eventSegs : Event → List String
  | Event.groupEnter s => s
  | Event.projectDone s _ => s
  | Event.batchDone s => s

/-- `p` is an initial segment of `q` (the group at `q` lies in the subtree
rooted at the group at `p`). -/
def underSegs (p q : List String) : Bool :=
  q.take p.length = p

/-- Per-group report of one run: the group's string path and segment path,
the `success_count`/`failed_count` pair logged at source line 320, and the
collected worker outcomes in submission order. -/
structure GroupResult where
  path : String
  segs : List String
  successCount : Nat
  failedCount : Nat
  outcomes : List (Nat × WorkerOut)
deriving DecidableEq

/-- Everything one `migrate_group` run produces: per-group reports in
visit (depth-first, pre-) order, the event trace, and the final target
project and group stores. -/
structure RunData where
  groups : List GroupResult
  trace : List Event
  state : List String
  gstate : GroupState
deriving DecidableEq

/-- The result-collection loop of source lines 299-309: a truthy
`future.result()` increments `success_count`, a `None` increments
`failed_count`, and an exception raised out of the worker is caught there
and also counted as failed. -/
def tally : List (Nat × WorkerOut) → Nat × Nat
  | [] => (0, 0)
  | po :: rest =>
    let t := tally rest
    match po.2.result with
    | PyResult.ok (some _) => (t.1 + 1, t.2)
    | PyResult.ok none => (t.1, t.2 + 1)
    | PyResult.exn _ => (t.1, t.2 + 1)
    | PyResult.diverge => t

/-- The coordinator batch (source lines 294-309): one worker per project
of the group, collected outcomes paired with the project id.  The bounded
thread pool is modelled by running the workers sequentially in submission
order, threading the target project store. -/
def runProjects (fuel timeout0 : Nat) (gpath : String) (overwrite : Bool) :
    List ProjInfo → List String → List (Nat × WorkerOut) × List String
  | [], st => ([], st)
  | p :: ps, st =>
    let o := migrate_project fuel timeout0 p gpath overwrite st
    let r := runProjects fuel timeout0 gpath overwrite ps o.state
    ((p.id, o) :: r.1, r.2)

mutual
/-- The recursion driver `migrate_group` (source lines 277-320) on the
subtree rooted at the accumulated source path: resolve the target group
structure, run the group's own project batch to completion, tally it, and
only then process each direct subgroup in listing order, threading the
stores.  `none` means the run never finishes (a worker's polling loop
blocked forever). -/
def migrate_group (fuel timeout0 : Nat) (overwrite : Bool) (t : SrcTree)
    (path : String) (segs : List String) (st : List String) (gs : GroupState) :
    Option RunData :=
  match t with
  | SrcTree.node _ vis projects subs =>
    match create_target_group_structure gs path vis with
    | (none, _) => none
    | (some tg, gs1) =>
      let pr := runProjects fuel timeout0 tg.full_path overwrite projects st
      if pr.1.any (fun po => po.2.result = PyResult.diverge) then none
      else
        let tl := tally pr.1
        let gr : GroupResult :=
          { path := path, segs := segs, successCount := tl.1, failedCount := tl.2,
            outcomes := pr.1 }
        let localTrace := Event.groupEnter segs ::
          (pr.1.map fun po => Event.projectDone segs po.1) ++ [Event.batchDone segs]
        match migrate_subs fuel timeout0 overwrite subs path segs pr.2 gs1 with
        | none => none
        | some d =>
          some { groups := gr :: d.groups, trace := localTrace ++ d.trace,
                 state := d.state, gstate := d.gstate }

/-- The subgroup loop of source lines 315-318: strictly sequential, in
listing order, each recursion receiving `f"{source_group_path}/{subgroup.path}"`. -/
def migrate_subs (fuel timeout0 : Nat) (overwrite : Bool) (subs : List SrcTree)
    (path : String) (segs : List String) (st : List String) (gs : GroupState) :
    Option RunData :=
  match subs with
  | [] => some { groups := [], trace := [], state := st, gstate := gs }
  | s :: rest =>
    match migrate_group fuel timeout0 overwrite s (path ++ "/" ++ s.seg)
        (segs ++ [s.seg]) st gs with
    | none => none
    | some d1 =>
      match migrate_subs fuel timeout0 overwrite rest path segs d1.state d1.gstate with
      | none => none
      | some d2 =>
        some { groups := d1.groups ++ d2.groups, trace := d1.trace ++ d2.trace,
               state := d2.state, gstate := d2.gstate }
end

mutual
/-- The pre-order spine of the source tree: for every group in visit
order, its segment path together with its direct projects' ids. -/
def spine (segs : List String) : SrcTree → List (List String × List Nat)
  | SrcTree.node _ _ ps subs => (segs, ps.map (fun p => p.id)) :: spineList segs subs

/-- Spines of a subgroup list in listing order. -/
def spineList (segs : List String) : List SrcTree → List (List String × List Nat)
  | [] => []
  | s :: rest => spine (segs ++ [s.seg]) s ++ spineList segs rest
end

/-- A fully cooperative environment: no injected errors, canonical path and
name both `"p"`, export immediately finished, tiny artifact, import
returning a status-free project object with id 7. -/
def happyEnv : WorkerEnv :=
  { nameLookupErr := none, fetchErr := none, fpath := "p", fname := "p",
    pathLookupErr := none, exportStatus := fun _ => JobStatus.finished,
    exportSizeBytes := 0, importResult := Except.ok (ImportHandle.obj 7 none),
    refetchStatus := none }

/-- A cooperative source project named `"p"`. -/
def demoProj : ProjInfo := { id := 1, name := "p", env := happyEnv }

/-- A cooperative environment for a second project `"q"`. -/
def happyEnvQ : WorkerEnv :=
  { happyEnv with
    fpath := "q", fname := "q",
    importResult := Except.ok (ImportHandle.obj 8 none) }

/-- A cooperative source project named `"q"`. -/
def demoProjQ : ProjInfo := { id := 2, name := "q", env := happyEnvQ }

/-- An empty target group store. -/
def gs0 : GroupState := { groups := [], nextId := 1 }

/-- A one-group source tree: group `g` with the single project `p`. -/
def demoTree : SrcTree := SrcTree.node "g" "private" [demoProj] []

/-- A two-level source tree: group `g` with project `p` and subgroup `g/b`
with project `q`. -/
def demoTree2 : SrcTree :=
  SrcTree.node "g" "private" [demoProj] [SrcTree.node "b" "private" [demoProjQ] []]

/-- An environment whose fetch of the full source project raises. -/
def fetchErrEnv : WorkerEnv := { happyEnv with fetchErr := some "boom" }

/-- An environment whose canonical path `"q"` differs from the listing name
`"p"` and whose path lookup raises something other than `GitlabGetError`. -/
def pathErrEnv : WorkerEnv :=
  { happyEnv with fpath := "q", fname := "q", pathLookupErr := some "boom" }

/-- An environment whose import call returns a bare-identifier dict; the
refetched full object carries `import_status` `started` then `failed`. -/
def dictPollEnv : WorkerEnv :=
  { happyEnv with
    importResult := Except.ok (ImportHandle.dict (some 7)),
    refetchStatus := some (fun n => if n = 0 then JobStatus.started else JobStatus.failed) }

/-- A cooperative environment with a 250 MB export artifact. -/
def bigEnv : WorkerEnv := { happyEnv with exportSizeBytes := 250 * MB }

/-- Pointwise relation between a first-run outcome and the corresponding
second-run outcome of the same project: same project id, a migrated first
run is now skipped, and the second run never migrates. -/
def outcomeRel (a b : Nat × WorkerOut) : Prop :=
  a.1 = b.1 ∧ (isMigrated a.2 = true → isSkipped b.2 = true) ∧ isMigrated b.2 = false

/-- Per-group relation between the reports of two consecutive runs: the
same group, with outcomes related pointwise by `outcomeRel`. -/
def groupRel (g1 g2 : GroupResult) : Prop :=
  g1.segs = g2.segs ∧ g1.path = g2.path ∧
  List.Forall₂ outcomeRel g1.outcomes g2.outcomes

/-- If the polling loop exits (with any amount of fuel), some observation
of the status stream was terminal. -/
theorem waitJob_isSome_terminal (f : Nat → JobStatus) :
    ∀ k n, (waitJob k f n).isSome = true →
      ∃ m, f m = JobStatus.finished ∨ f m = JobStatus.failed := by
  intro k
  induction k with
  | zero => intro n h; simp [waitJob] at h
  | succ k ih =>
    intro n h
    rw [waitJob] at h
    by_cases h1 : f n = JobStatus.finished
    · exact ⟨n, Or.inl h1⟩
    · rw [if_pos h1] at h
      by_cases h2 : f (n + 1) = JobStatus.failed
      · exact ⟨n + 1, Or.inr h2⟩
      · rw [if_neg h2] at h
        exact ih (n + 1) h

/-- If some observation at or after the entry index is terminal (with the
real-world property that `failed` is absorbing), enough fuel makes the
polling loop exit. -/
theorem waitJob_complete (f : Nat → JobStatus)
    (hAbs : ∀ n, f n = JobStatus.failed → f (n + 1) = JobStatus.failed) :
    ∀ d s, (f (s + d) = JobStatus.finished ∨ f (s + d) = JobStatus.failed) →
      (waitJob (d + 1) f s).isSome = true := by
  intro d
  induction d with
  | zero =>
    intro s h
    rw [waitJob]
    rcases h with h | h
    · rw [Nat.add_zero] at h
      rw [if_neg (by simp [h])]
      rfl
    · rw [Nat.add_zero] at h
      by_cases h1 : f s = JobStatus.finished
      · rw [if_neg (by simp [h1])]; rfl
      · rw [if_pos h1, if_pos (hAbs s h)]; rfl
  | succ d ih =>
    intro s h
    rw [waitJob]
    by_cases h1 : f s = JobStatus.finished
    · rw [if_neg (by simp [h1])]; rfl
    · rw [if_pos h1]
      by_cases h2 : f (s + 1) = JobStatus.failed
      · rw [if_pos h2]; rfl
      · rw [if_neg h2]
        apply ih (s + 1)
        rwa [Nat.succ_add_eq_add_succ]

/-- C10: the worker's export-wait and import-wait loops have no retry cap
or maximum total wait: for a status stream whose `failed` state is
absorbing, the loop terminates (for some amount of fuel) if and only if
the polled status eventually becomes `finished` or `failed`; an import
handle without a status field exits immediately.  A stream stuck forever
in a non-terminal status therefore blocks the worker indefinitely. -/
theorem claim_C10_poll_loops_unbounded (f : Nat → JobStatus)
    (hAbs : ∀ n, f n = JobStatus.failed → f (n + 1) = JobStatus.failed) :
    ((∃ k, (waitJob k f 0).isSome = true) ↔
      ∃ n, f n = JobStatus.finished ∨ f n = JobStatus.failed) ∧
    ((∃ k, (pollImport k (some f)).isSome = true) ↔
      ∃ n, f n = JobStatus.finished ∨ f n = JobStatus.failed) ∧
    (∀ k, pollImport k none = some true) := by
  have main : (∃ k, (waitJob k f 0).isSome = true) ↔
      ∃ n, f n = JobStatus.finished ∨ f n = JobStatus.failed := by
    constructor
    · rintro ⟨k, hk⟩
      exact waitJob_isSome_terminal f k 0 hk
    · rintro ⟨n, hn⟩
      exact ⟨n + 1, waitJob_complete f hAbs n 0 (by simpa using hn)⟩
  refine ⟨main, ?_, fun _ => rfl⟩
  simpa [pollImport] using main

/-- Witness for C10 at the constantly-finished stream. -/
theorem claim_C10_poll_loops_unbounded_witness :
    (∃ k, (waitJob k (fun _ => JobStatus.finished) 0).isSome = true) ∧
    (∃ k, (pollImport k (some (fun _ => JobStatus.finished))).isSome = true) := by
  have h := claim_C10_poll_loops_unbounded (fun _ => JobStatus.finished)
    (fun _ hn => absurd hn (fun hc => JobStatus.noConfusion hc))
  exact ⟨h.1.mpr ⟨0, Or.inl rfl⟩, h.2.1.mpr ⟨0, Or.inl rfl⟩⟩

/-- An early return of the name check is a `None` return with the state
untouched and the timeout never modified. -/
theorem checkNamePhase_inl (t0 : Nat) (env : WorkerEnv) (pn k1 : String) (ow : Bool)
    (m : MidState) (out : WorkerOut) (h : checkNamePhase t0 env pn k1 ow m = Sum.inl out) :
    out.result = PyResult.ok none ∧ out.state = m.st ∧
    out.importTimeout = none ∧ out.finalTimeout = t0 := by
  rw [checkNamePhase] at h
  rcases henv : env.nameLookupErr with _ | msg <;> rw [henv] at h <;>
    split_ifs at h <;> cases h <;> exact ⟨rfl, rfl, rfl, rfl⟩

/-- Without overwrite, a proceeding name check means the lookup raised
nothing and found nothing, and leaves the state untouched. -/
theorem checkNamePhase_inr_false (t0 : Nat) (env : WorkerEnv) (pn k1 : String)
    (m m1 : MidState) (h : checkNamePhase t0 env pn k1 false m = Sum.inr m1) :
    env.nameLookupErr = none ∧ k1 ∉ m.st ∧
    m1 = { st := m.st, log := m.log ++ [LogEvent.notFoundProceed pn] } := by
  rw [checkNamePhase] at h
  rcases henv : env.nameLookupErr with _ | msg <;> rw [henv] at h <;>
    split_ifs at h <;> cases h <;> simp_all

/-- A name lookup finding the project, without overwrite, skips. -/
theorem checkNamePhase_found_skip (t0 : Nat) (env : WorkerEnv) (pn k1 : String)
    (m : MidState) (h1 : env.nameLookupErr = none) (h2 : k1 ∈ m.st) :
    checkNamePhase t0 env pn k1 false m =
      Sum.inl (earlyOut t0 (PyResult.ok none)
        { st := m.st, log := m.log ++ [LogEvent.skipExistingName pn] }) := by
  rw [checkNamePhase, h1]
  simp [h2]

/-- A name lookup raising nothing and finding nothing proceeds. -/
theorem checkNamePhase_pass (t0 : Nat) (env : WorkerEnv) (pn k1 : String) (ow : Bool)
    (m : MidState) (h1 : env.nameLookupErr = none) (h2 : k1 ∉ m.st) :
    checkNamePhase t0 env pn k1 ow m =
      Sum.inr { st := m.st, log := m.log ++ [LogEvent.notFoundProceed pn] } := by
  rw [checkNamePhase, h1]
  simp [h2]

/-- An early return of the path check is a `None` return with the state
untouched and the timeout never modified. -/
theorem checkPathPhase_inl (t0 : Nat) (env : WorkerEnv) (pn tp k2 : String) (ow : Bool)
    (m : MidState) (out : WorkerOut) (h : checkPathPhase t0 env pn tp k2 ow m = Sum.inl out) :
    out.result = PyResult.ok none ∧ out.state = m.st ∧
    out.importTimeout = none ∧ out.finalTimeout = t0 := by
  rw [checkPathPhase] at h
  rcases henv : env.pathLookupErr with _ | msg <;> rw [henv] at h <;>
    split_ifs at h <;> cases h <;> exact ⟨rfl, rfl, rfl, rfl⟩

/-- Without overwrite, a proceeding path check leaves the mid-state
unchanged, and when the canonical path differs from the name it means the
lookup raised nothing and found nothing. -/
theorem checkPathPhase_inr_false (t0 : Nat) (env : WorkerEnv) (pn tp k2 : String)
    (m m2 : MidState) (h : checkPathPhase t0 env pn tp k2 false m = Sum.inr m2) :
    m2 = m ∧ (tp ≠ pn → env.pathLookupErr = none ∧ k2 ∉ m.st) := by
  rw [checkPathPhase] at h
  rcases henv : env.pathLookupErr with _ | msg <;> rw [henv] at h <;>
    split_ifs at h <;> cases h <;> simp_all

/-- A differing canonical path whose lookup raises something other than
not-found makes the path check return `None` regardless of overwrite. -/
theorem checkPathPhase_err (t0 : Nat) (env : WorkerEnv) (pn tp k2 : String) (ow : Bool)
    (m : MidState) (msg : String) (h0 : tp ≠ pn) (h1 : env.pathLookupErr = some msg) :
    checkPathPhase t0 env pn tp k2 ow m =
      Sum.inl (earlyOut t0 (PyResult.ok none)
        { st := m.st, log := m.log ++ [LogEvent.pathCheckErr msg] }) := by
  rw [checkPathPhase, if_pos h0, h1]

/-- A differing canonical path found on the target, without overwrite,
skips. -/
theorem checkPathPhase_found_skip (t0 : Nat) (env : WorkerEnv) (pn tp k2 : String)
    (m : MidState) (h0 : tp ≠ pn) (h1 : env.pathLookupErr = none) (h2 : k2 ∈ m.st) :
    checkPathPhase t0 env pn tp k2 false m =
      Sum.inl (earlyOut t0 (PyResult.ok none)
        { st := m.st, log := m.log ++ [LogEvent.skipExistingPath tp] }) := by
  rw [checkPathPhase, if_pos h0, h1]
  simp [h2]

/-- A path check that raises nothing and finds nothing proceeds with the
mid-state unchanged. -/
theorem checkPathPhase_pass (t0 : Nat) (env : WorkerEnv) (pn tp k2 : String) (ow : Bool)
    (m : MidState) (h : tp = pn ∨ (env.pathLookupErr = none ∧ k2 ∉ m.st)) :
    checkPathPhase t0 env pn tp k2 ow m = Sum.inr m := by
  rw [checkPathPhase]
  rcases h with h | ⟨h1, h2⟩
  · rw [if_neg (by simp [h])]
  · by_cases h0 : tp = pn
    · rw [if_neg (by simp [h0])]
    · rw [if_pos h0, h1]
      simp [h2]

/-- The export/import section restores the session timeout on every path. -/
theorem eip_finalTimeout (fuel t0 : Nat) (env : WorkerEnv) (pn tn k2 : String) (m : MidState) :
    (exportImportPhase fuel t0 env pn tn k2 m).finalTimeout = t0 := by
  simp only [exportImportPhase]
  repeat' split
  all_goals rfl

/-- The timeout in effect at the import call is the original raised to at
least 120 exactly when the artifact exceeds 200 MB. -/
theorem eip_importTimeout (fuel t0 : Nat) (env : WorkerEnv) (pn tn k2 : String) (m : MidState)
    (tv : Nat) (htv : (exportImportPhase fuel t0 env pn tn k2 m).importTimeout = some tv) :
    tv = if 200 * MB < env.exportSizeBytes then max t0 120 else t0 := by
  simp only [exportImportPhase] at htv
  repeat' split at htv
  all_goals cases htv <;>
    solve
      | simp_all
      | rw [if_neg (by omega)]

/-- The result of the export/import section does not depend on the state
or log accumulated so far — only on the environment and fuel. -/
theorem eip_result_const (fuel t0 : Nat) (env : WorkerEnv) (pn tn k2 : String)
    (m m2 : MidState) :
    (exportImportPhase fuel t0 env pn tn k2 m).result =
      (exportImportPhase fuel t0 env pn tn k2 m2).result := by
  simp only [exportImportPhase]
  repeat' split
  all_goals rfl

/-- The export/import section either leaves the target store unchanged or
appends exactly the imported project's full path. -/
theorem eip_state (fuel t0 : Nat) (env : WorkerEnv) (pn tn k2 : String) (m : MidState) :
    (exportImportPhase fuel t0 env pn tn k2 m).state = m.st ∨
    (exportImportPhase fuel t0 env pn tn k2 m).state = m.st ++ [k2] := by
  simp only [exportImportPhase]
  repeat' split
  all_goals first
    | exact Or.inl rfl
    | exact Or.inr rfl

/-- A worker outcome is migrated exactly when its result is a returned
project. -/
theorem isMigrated_iff (o : WorkerOut) :
    isMigrated o = true ↔ ∃ pid, o.result = PyResult.ok (some pid) := by
  unfold isMigrated
  cases hr : o.result with
  | ok a => cases a <;> simp
  | exn msg => simp
  | diverge => simp

/-- A migrated outcome of the export/import section stored the project's
full path. -/
theorem eip_migrated_state (fuel t0 : Nat) (env : WorkerEnv) (pn tn k2 : String)
    (m : MidState) (pid : Nat)
    (h : (exportImportPhase fuel t0 env pn tn k2 m).result = PyResult.ok (some pid)) :
    (exportImportPhase fuel t0 env pn tn k2 m).state = m.st ++ [k2] := by
  revert h
  simp only [exportImportPhase]
  repeat' split
  all_goals intro h
  all_goals first
    | rfl
    | simp [earlyOut] at h

/-- After a finished export and a non-raising import call, the worker's
result is fully determined by the returned handle: an object handle is
polled on its own status field (absence meaning immediately finished), a
dict handle without a usable id fails, and a dict handle with an id is
refetched and then polled on the refetched object's status field. -/
theorem eip_import_result (fuel t0 : Nat) (env : WorkerEnv) (pn tn k2 : String)
    (m : MidState) (handle : ImportHandle)
    (hw : waitJob fuel env.exportStatus 0 = some true)
    (hi : env.importResult = Except.ok handle) :
    (exportImportPhase fuel t0 env pn tn k2 m).result =
      (match handle with
        | ImportHandle.dict pid =>
          if pid.getD 0 = 0 then PyResult.ok none
          else
            (match pollImport fuel env.refetchStatus with
              | none => PyResult.diverge
              | some false => PyResult.ok none
              | some true => PyResult.ok (some (pid.getD 0)))
        | ImportHandle.obj pid status =>
          (match pollImport fuel status with
            | none => PyResult.diverge
            | some false => PyResult.ok none
            | some true => PyResult.ok (some pid))) := by
  simp only [exportImportPhase, hw, hi]
  cases handle with
  | dict pid =>
    dsimp only
    by_cases hz : pid.getD 0 = 0
    · simp [hz]
    · simp only [if_neg hz]
      cases pollImport fuel env.refetchStatus with
      | none => rfl
      | some c => cases c <;> rfl
  | obj pid status =>
    dsimp only
    cases pollImport fuel status with
    | none => rfl
    | some c => cases c <;> rfl

/-- The worker never leaves the session timeout modified: at return time
`thread_target_gl.timeout` equals the value the session was created with,
whatever happened (the `except`/`finally` of source lines 234-247). -/
theorem migrate_project_finalTimeout (fuel t0 : Nat) (p : ProjInfo) (gpath : String)
    (ow : Bool) (st : List String) :
    (migrate_project fuel t0 p gpath ow st).finalTimeout = t0 := by
  simp only [migrate_project]
  cases hcn : checkNamePhase t0 p.env p.name (gpath ++ "/" ++ p.name) ow
      { st := st, log := [LogEvent.startMigrate p.name] } with
  | inl out => exact (checkNamePhase_inl _ _ _ _ _ _ _ hcn).2.2.2
  | inr m1 =>
    dsimp only
    cases hf : p.env.fetchErr with
    | some msg => rfl
    | none =>
      dsimp only
      cases hcp : checkPathPhase t0 p.env p.name p.env.fpath
          (gpath ++ "/" ++ p.env.fpath) ow m1 with
      | inl out => exact (checkPathPhase_inl _ _ _ _ _ _ _ _ hcp).2.2.2
      | inr m2 => exact eip_finalTimeout _ _ _ _ _ _ _

/-- Whenever the worker reaches the import call, the timeout in effect
there is the original raised to at least 120 exactly for artifacts above
200 MB, and the original otherwise. -/
theorem migrate_project_importTimeout (fuel t0 : Nat) (p : ProjInfo) (gpath : String)
    (ow : Bool) (st : List String) (tv : Nat)
    (htv : (migrate_project fuel t0 p gpath ow st).importTimeout = some tv) :
    tv = if 200 * MB < p.env.exportSizeBytes then max t0 120 else t0 := by
  rw [migrate_project] at htv
  revert htv
  cases hcn : checkNamePhase t0 p.env p.name (gpath ++ "/" ++ p.name) ow
      { st := st, log := [LogEvent.startMigrate p.name] } with
  | inl out =>
    intro htv
    rw [(checkNamePhase_inl _ _ _ _ _ _ _ hcn).2.2.1] at htv
    cases htv
  | inr m1 =>
    dsimp only
    cases hf : p.env.fetchErr with
    | some msg => intro htv; cases htv
    | none =>
      dsimp only
      cases hcp : checkPathPhase t0 p.env p.name p.env.fpath
          (gpath ++ "/" ++ p.env.fpath) ow m1 with
      | inl out =>
        intro htv
        rw [(checkPathPhase_inl _ _ _ _ _ _ _ _ hcp).2.2.1] at htv
        cases htv
      | inr m2 =>
        intro htv
        exact eip_importTimeout _ _ _ _ _ _ _ _ htv

/-- Without overwrite, a worker run takes exactly one of three shapes:
an early `None` return that leaves the target store untouched, the
escaping exception of the unbound-variable handler slip, or — when the
name lookup raised nothing and found nothing, the source fetch succeeded,
and (if the canonical path differs) the path lookup raised nothing and
found nothing — the export/import section run on the initial store. -/
theorem migrate_project_cases_false (fuel t0 : Nat) (p : ProjInfo) (gpath : String)
    (st : List String) :
    ((migrate_project fuel t0 p gpath false st).result = PyResult.ok none ∧
      (migrate_project fuel t0 p gpath false st).state = st) ∨
    ((migrate_project fuel t0 p gpath false st).result =
        PyResult.exn "UnboundLocalError: thread_project" ∧
      (migrate_project fuel t0 p gpath false st).state = st) ∨
    (p.env.nameLookupErr = none ∧ (gpath ++ "/" ++ p.name) ∉ st ∧
      p.env.fetchErr = none ∧
      (p.env.fpath ≠ p.name →
        p.env.pathLookupErr = none ∧ (gpath ++ "/" ++ p.env.fpath) ∉ st) ∧
      migrate_project fuel t0 p gpath false st =
        exportImportPhase fuel t0 p.env p.name p.env.fname (gpath ++ "/" ++ p.env.fpath)
          { st := st,
            log := [LogEvent.startMigrate p.name, LogEvent.notFoundProceed p.name] }) := by
  simp only [migrate_project]
  cases hcn : checkNamePhase t0 p.env p.name (gpath ++ "/" ++ p.name) false
      { st := st, log := [LogEvent.startMigrate p.name] } with
  | inl out =>
    obtain ⟨hr, hs, _, _⟩ := checkNamePhase_inl _ _ _ _ _ _ _ hcn
    exact Or.inl ⟨hr, hs⟩
  | inr m1 =>
    obtain ⟨hne, hk1, hm1⟩ := checkNamePhase_inr_false _ _ _ _ _ _ hcn
    subst hm1
    dsimp only
    cases hf : p.env.fetchErr with
    | some msg =>
      exact Or.inr (Or.inl ⟨rfl, rfl⟩)
    | none =>
      dsimp only
      cases hcp : checkPathPhase t0 p.env p.name p.env.fpath
          (gpath ++ "/" ++ p.env.fpath) false
          { st := st,
            log := [LogEvent.startMigrate p.name] ++ [LogEvent.notFoundProceed p.name] } with
      | inl out =>
        obtain ⟨hr, hs, _, _⟩ := checkPathPhase_inl _ _ _ _ _ _ _ _ hcp
        exact Or.inl ⟨hr, hs⟩
      | inr m2 =>
        obtain ⟨hm2, hpc⟩ := checkPathPhase_inr_false _ _ _ _ _ _ _ hcp
        subst hm2
        exact Or.inr (Or.inr ⟨hne, hk1, rfl, fun hd => hpc hd, rfl⟩)

/-- A skip outcome returned `None`. -/
theorem isSkipped_result (o : WorkerOut) (h : isSkipped o = true) :
    o.result = PyResult.ok none := by
  unfold isSkipped at h
  rw [Bool.and_eq_true] at h
  exact of_decide_eq_true h.1

/-- Without overwrite, when the lookups raise nothing and the canonical
path is already present on the target, the worker skips: it returns
`None`, logs a skip, and leaves the target store untouched.  (When the
name key is present it skips at CHECK_NAME; otherwise, since the present
path key then differs from the name key, it skips at CHECK_PATH.) -/
theorem migrate_project_skip (fuel t0 : Nat) (p : ProjInfo) (gpath : String)
    (st : List String)
    (hne : p.env.nameLookupErr = none) (hf : p.env.fetchErr = none)
    (hple : p.env.fpath ≠ p.name → p.env.pathLookupErr = none)
    (hk2 : (gpath ++ "/" ++ p.env.fpath) ∈ st) :
    (migrate_project fuel t0 p gpath false st).result = PyResult.ok none ∧
    isSkipped (migrate_project fuel t0 p gpath false st) = true ∧
    (migrate_project fuel t0 p gpath false st).state = st := by
  simp only [migrate_project]
  by_cases hk1 : (gpath ++ "/" ++ p.name) ∈ st
  · rw [checkNamePhase_found_skip t0 p.env p.name _ _ hne hk1]
    exact ⟨rfl, by simp [isSkipped, earlyOut], rfl⟩
  · rw [checkNamePhase_pass t0 p.env p.name _ false _ hne hk1]
    dsimp only
    rw [hf]
    dsimp only
    by_cases hfp : p.env.fpath = p.name
    · exfalso
      apply hk1
      rw [hfp] at hk2
      exact hk2
    · rw [checkPathPhase_found_skip t0 p.env p.name _ _ _ hfp (hple hfp) hk2]
      exact ⟨rfl, by simp [isSkipped, earlyOut], rfl⟩

/-- Without overwrite, when the name check and (if needed) the path check
pass, the worker is exactly the export/import section on the unchanged
store. -/
theorem migrate_project_pass_eq (fuel t0 : Nat) (p : ProjInfo) (gpath : String)
    (st : List String)
    (hne : p.env.nameLookupErr = none) (hk1 : (gpath ++ "/" ++ p.name) ∉ st)
    (hf : p.env.fetchErr = none)
    (hpath : p.env.fpath = p.name ∨
      (p.env.pathLookupErr = none ∧ (gpath ++ "/" ++ p.env.fpath) ∉ st)) :
    migrate_project fuel t0 p gpath false st =
      exportImportPhase fuel t0 p.env p.name p.env.fname (gpath ++ "/" ++ p.env.fpath)
        { st := st,
          log := [LogEvent.startMigrate p.name] ++ [LogEvent.notFoundProceed p.name] } := by
  simp only [migrate_project]
  rw [checkNamePhase_pass t0 p.env p.name _ false _ hne hk1]
  dsimp only
  rw [hf]
  dsimp only
  rw [checkPathPhase_pass t0 p.env p.name _ _ false _ hpath]

/-- Without overwrite, a migrated outcome implies: the name lookup raised
nothing and found nothing, the fetch succeeded, the path check (when
taken) raised nothing and found nothing, and exactly the canonical path
key was appended to the target store. -/
theorem migrate_project_mig_inv (fuel t0 : Nat) (p : ProjInfo) (gpath : String)
    (st : List String) (pid : Nat)
    (h : (migrate_project fuel t0 p gpath false st).result = PyResult.ok (some pid)) :
    p.env.nameLookupErr = none ∧ (gpath ++ "/" ++ p.name) ∉ st ∧
    p.env.fetchErr = none ∧
    (p.env.fpath ≠ p.name →
      p.env.pathLookupErr = none ∧ (gpath ++ "/" ++ p.env.fpath) ∉ st) ∧
    (migrate_project fuel t0 p gpath false st).state =
      st ++ [gpath ++ "/" ++ p.env.fpath] := by
  rcases migrate_project_cases_false fuel t0 p gpath st with
    ⟨hr, _⟩ | ⟨hr, _⟩ | ⟨h1, h2, h3, h4, heq⟩
  · rw [h] at hr; cases hr
  · rw [h] at hr; cases hr
  · refine ⟨h1, h2, h3, h4, ?_⟩
    rw [heq] at h ⊢
    exact eip_migrated_state _ _ _ _ _ _ _ pid h

/-- Without overwrite, the worker either leaves the target store unchanged
or appends exactly the canonical path key. -/
theorem migrate_project_state_false (fuel t0 : Nat) (p : ProjInfo) (gpath : String)
    (st : List String) :
    (migrate_project fuel t0 p gpath false st).state = st ∨
    (migrate_project fuel t0 p gpath false st).state =
      st ++ [gpath ++ "/" ++ p.env.fpath] := by
  rcases migrate_project_cases_false fuel t0 p gpath st with
    ⟨_, hs⟩ | ⟨_, hs⟩ | ⟨_, _, _, _, heq⟩
  · exact Or.inl hs
  · exact Or.inl hs
  · rw [heq]
    exact eip_state _ _ _ _ _ _ _

/-- Without overwrite, the worker only grows the target store. -/
theorem migrate_project_grow (fuel t0 : Nat) (p : ProjInfo) (gpath : String)
    (st : List String) (x : String) (hx : x ∈ st) :
    x ∈ (migrate_project fuel t0 p gpath false st).state := by
  rcases migrate_project_state_false fuel t0 p gpath st with hs | hs <;> rw [hs]
  · exact hx
  · exact List.mem_append_left _ hx

/-- Without overwrite, rerunning a worker against any store that contains
everything its first run left behind: a migrated first run now skips, the
second run never migrates, never diverges when the first run terminated,
and still only grows the store. -/
theorem migrate_project_round2 (fuel t0 : Nat) (p : ProjInfo) (gpath : String)
    (st1 st2 : List String)
    (hnd : (migrate_project fuel t0 p gpath false st1).result ≠ PyResult.diverge)
    (hstate : ∀ x ∈ (migrate_project fuel t0 p gpath false st1).state, x ∈ st2) :
    (isMigrated (migrate_project fuel t0 p gpath false st1) = true →
      isSkipped (migrate_project fuel t0 p gpath false st2) = true) ∧
    isMigrated (migrate_project fuel t0 p gpath false st2) = false ∧
    (migrate_project fuel t0 p gpath false st2).result ≠ PyResult.diverge ∧
    ∀ x ∈ st2, x ∈ (migrate_project fuel t0 p gpath false st2).state := by
  have hsub12 : ∀ x ∈ st1, x ∈ st2 := fun x hx =>
    hstate x (migrate_project_grow fuel t0 p gpath st1 x hx)
  have hpart1 : isMigrated (migrate_project fuel t0 p gpath false st1) = true →
      isSkipped (migrate_project fuel t0 p gpath false st2) = true := by
    intro hmig
    obtain ⟨pid, hpid⟩ := (isMigrated_iff _).mp hmig
    obtain ⟨hne, hk1, hf, hple, hs⟩ := migrate_project_mig_inv fuel t0 p gpath st1 pid hpid
    have hk2 : (gpath ++ "/" ++ p.env.fpath) ∈ st2 := by
      apply hstate
      rw [hs]
      exact List.mem_append_right _ (List.mem_singleton_self _)
    exact (migrate_project_skip fuel t0 p gpath st2 hne hf
      (fun hd => (hple hd).1) hk2).2.1
  refine ⟨hpart1, ?_, ?_, ?_⟩
  · cases hb : isMigrated (migrate_project fuel t0 p gpath false st2) with
    | false => rfl
    | true =>
      exfalso
      obtain ⟨pid2, hpid2⟩ := (isMigrated_iff _).mp hb
      obtain ⟨hne, hk1b, hf, hpleb, _⟩ :=
        migrate_project_mig_inv fuel t0 p gpath st2 pid2 hpid2
      have hk1a : (gpath ++ "/" ++ p.name) ∉ st1 := fun hx => hk1b (hsub12 _ hx)
      have hpatha : p.env.fpath = p.name ∨
          (p.env.pathLookupErr = none ∧ (gpath ++ "/" ++ p.env.fpath) ∉ st1) := by
        by_cases hd : p.env.fpath = p.name
        · exact Or.inl hd
        · exact Or.inr ⟨(hpleb hd).1, fun hx => (hpleb hd).2 (hsub12 _ hx)⟩
      have hpathb : p.env.fpath = p.name ∨
          (p.env.pathLookupErr = none ∧ (gpath ++ "/" ++ p.env.fpath) ∉ st2) := by
        by_cases hd : p.env.fpath = p.name
        · exact Or.inl hd
        · exact Or.inr ⟨(hpleb hd).1, (hpleb hd).2⟩
      have heqa := migrate_project_pass_eq fuel t0 p gpath st1 hne hk1a hf hpatha
      have heqb := migrate_project_pass_eq fuel t0 p gpath st2 hne hk1b hf hpathb
      have hres : (migrate_project fuel t0 p gpath false st1).result =
          (migrate_project fuel t0 p gpath false st2).result := by
        rw [heqa, heqb]
        exact eip_result_const _ _ _ _ _ _ _ _
      have hmiga : isMigrated (migrate_project fuel t0 p gpath false st1) = true := by
        rw [isMigrated_iff]
        exact ⟨pid2, by rw [hres]; exact hpid2⟩
      have hskipb := hpart1 hmiga
      rw [isSkipped_result _ hskipb] at hpid2
      cases hpid2
  · intro hdb
    rcases migrate_project_cases_false fuel t0 p gpath st2 with
      ⟨hr, _⟩ | ⟨hr, _⟩ | ⟨hne, hk1b, hf, hpleb, heqb⟩
    · rw [hdb] at hr; cases hr
    · rw [hdb] at hr; cases hr
    · have hk1a : (gpath ++ "/" ++ p.name) ∉ st1 := fun hx => hk1b (hsub12 _ hx)
      have hpatha : p.env.fpath = p.name ∨
          (p.env.pathLookupErr = none ∧ (gpath ++ "/" ++ p.env.fpath) ∉ st1) := by
        by_cases hd : p.env.fpath = p.name
        · exact Or.inl hd
        · exact Or.inr ⟨(hpleb hd).1, fun hx => (hpleb hd).2 (hsub12 _ hx)⟩
      have heqa := migrate_project_pass_eq fuel t0 p gpath st1 hne hk1a hf hpatha
      apply hnd
      rw [heqb] at hdb
      rw [heqa]
      rw [eip_result_const fuel t0 p.env p.name p.env.fname (gpath ++ "/" ++ p.env.fpath)
        { st := st1,
          log := [LogEvent.startMigrate p.name] ++ [LogEvent.notFoundProceed p.name] }
        { st := st2,
          log := [LogEvent.startMigrate p.name] ++ [LogEvent.notFoundProceed p.name] }]
      exact hdb
  · exact fun x hx => migrate_project_grow fuel t0 p gpath st2 x hx

/-- The collected outcomes pair each project id with its worker outcome,
in submission order. -/
theorem runProjects_ids (fuel t0 : Nat) (gpath : String) (ow : Bool)
    (ps : List ProjInfo) (st : List String) :
    (runProjects fuel t0 gpath ow ps st).1.map (fun po => po.1) =
      ps.map (fun p => p.id) := by
  induction ps generalizing st with
  | nil => rfl
  | cons p ps ih =>
    simp only [runProjects, List.map_cons, List.cons.injEq]
    exact ⟨trivial, ih _⟩

/-- Without overwrite, a whole batch only grows the target store. -/
theorem runProjects_grow (fuel t0 : Nat) (gpath : String) (ps : List ProjInfo)
    (st : List String) (x : String) (hx : x ∈ st) :
    x ∈ (runProjects fuel t0 gpath false ps st).2 := by
  induction ps generalizing st with
  | nil => simpa [runProjects] using hx
  | cons p ps ih =>
    simp only [runProjects]
    exact ih _ (migrate_project_grow _ _ _ _ _ _ hx)

/-- Each worker of a batch runs on a store that ends up inside the batch's
final store. -/
theorem runProjects_out_state (fuel t0 : Nat) (gpath : String) (ps : List ProjInfo)
    (st : List String) (po : Nat × WorkerOut)
    (hpo : po ∈ (runProjects fuel t0 gpath false ps st).1) :
    ∀ x ∈ po.2.state, x ∈ (runProjects fuel t0 gpath false ps st).2 := by
  induction ps generalizing st with
  | nil => simp [runProjects] at hpo
  | cons p ps ih =>
    simp only [runProjects] at hpo ⊢
    rcases List.mem_cons.mp hpo with h | h
    · subst h
      intro x hx
      exact runProjects_grow fuel t0 gpath ps _ x hx
    · exact ih _ h

/-- The second run of a batch against a store containing everything the
first run's final store had: outcomes correspond pointwise (same project
id, first-run migrations now skipped, no migration and no divergence the
second time), and the store still only grows. -/
theorem runProjects_round2 (fuel t0 : Nat) (gpath : String) (ps : List ProjInfo)
    (st1 st2 : List String)
    (hnd : ∀ po ∈ (runProjects fuel t0 gpath false ps st1).1,
      po.2.result ≠ PyResult.diverge)
    (hsub : ∀ x ∈ (runProjects fuel t0 gpath false ps st1).2, x ∈ st2) :
    List.Forall₂ (fun a b => a.1 = b.1 ∧
        (isMigrated a.2 = true → isSkipped b.2 = true) ∧
        isMigrated b.2 = false ∧ b.2.result ≠ PyResult.diverge)
      (runProjects fuel t0 gpath false ps st1).1
      (runProjects fuel t0 gpath false ps st2).1 ∧
    ∀ x ∈ st2, x ∈ (runProjects fuel t0 gpath false ps st2).2 := by
  induction ps generalizing st1 st2 with
  | nil =>
    refine ⟨List.Forall₂.nil, ?_⟩
    simp only [runProjects]
    exact fun x hx => hx
  | cons p ps ih =>
    simp only [runProjects] at hnd hsub ⊢
    have hndHead : (migrate_project fuel t0 p gpath false st1).result ≠ PyResult.diverge :=
      hnd _ (List.mem_cons_self _ _)
    have hstateHead : ∀ x ∈ (migrate_project fuel t0 p gpath false st1).state, x ∈ st2 :=
      fun x hx => hsub x (runProjects_grow fuel t0 gpath ps _ x hx)
    obtain ⟨hw1, hw2, hw3, hw4⟩ :=
      migrate_project_round2 fuel t0 p gpath st1 st2 hndHead hstateHead
    obtain ⟨hrel, hgrow⟩ := ih (migrate_project fuel t0 p gpath false st1).state
      (migrate_project fuel t0 p gpath false st2).state
      (fun po hpo => hnd po (List.mem_cons_of_mem _ hpo))
      (fun x hx => hw4 x (hsub x hx))
    exact ⟨List.Forall₂.cons ⟨rfl, hw1, hw2, hw3⟩ hrel,
      fun x hx => hgrow x (hw4 x hx)⟩

/-- For a batch whose outcomes all terminated, the collected tally counts
exactly the migrated outcomes as successes and everything else — `None`
returns (skips and failures alike) and escaped exceptions — as failures,
and the two counts add up to the number of projects. -/
theorem tally_counts (l : List (Nat × WorkerOut))
    (h : ∀ po ∈ l, po.2.result ≠ PyResult.diverge) :
    (tally l).1 = (l.filter fun po => isMigrated po.2).length ∧
    (tally l).2 = (l.filter fun po => !isMigrated po.2).length ∧
    (tally l).1 + (tally l).2 = l.length := by
  induction l with
  | nil => simp [tally]
  | cons po rest ih =>
    have hh := h po (List.mem_cons_self _ _)
    obtain ⟨i1, i2, i3⟩ := ih (fun q hq => h q (List.mem_cons_of_mem _ hq))
    rw [tally]
    cases hr : po.2.result with
    | ok a =>
      cases a with
      | none =>
        have hm : isMigrated po.2 = false := by unfold isMigrated; rw [hr]
        simp [List.filter_cons, hm, i1, i2, ← i3]
        omega
      | some pid =>
        have hm : isMigrated po.2 = true := by unfold isMigrated; rw [hr]
        simp [List.filter_cons, hm, i1, i2, ← i3]
        omega
    | exn msg =>
      have hm : isMigrated po.2 = false := by unfold isMigrated; rw [hr]
      simp [List.filter_cons, hm, i1, i2, ← i3]
      omega
    | diverge => exact absurd hr hh

/-- Splitting never yields an empty segment list. -/
theorem splitSlashAux_ne_nil : ∀ (cs acc : List Char), splitSlashAux cs acc ≠ [] := by
  intro cs
  induction cs with
  | nil => intro acc h; cases h
  | cons c rest ih =>
    intro acc
    rw [splitSlashAux]
    by_cases hc : c = '/'
    · rw [if_pos hc]
      intro h
      cases h
    · rw [if_neg hc]
      exact ih _

/-- Splitting a path never yields an empty segment list. -/
theorem splitSlash_ne_nil (s : String) : splitSlash s ≠ [] :=
  splitSlashAux_ne_nil s.data []

/-- Prepending a segment to the accumulation. -/
theorem accumJoin_cons (cur p : String) (l : List String) :
    accumJoin cur (p :: l) = accumJoin (accumStep cur p) l := rfl

/-- The group walk always succeeds (in this model lookups only fail as
not-found) and the returned node sits at the accumulated full path —
whatever the group store contains. -/
theorem ctgsAux_some (vis : String) :
    ∀ (parts : List String) (cur : String) (parent : Option GroupNode) (gs : GroupState),
      parts ≠ [] →
      ∃ g gs2, ctgsAux vis parts cur parent gs = (some g, gs2) ∧
        g.full_path = accumJoin cur parts := by
  intro parts
  induction parts with
  | nil => intro _ _ _ h; exact absurd rfl h
  | cons part rest ih =>
    intro cur parent gs _
    rw [ctgsAux.eq_def]
    dsimp only
    cases hf : gs.groups.find? (fun g => g.full_path = accumStep cur part) with
    | some gFound =>
      have hfp : gFound.full_path = accumStep cur part := by
        have := List.find?_some hf
        exact of_decide_eq_true this
      cases rest with
      | nil =>
        refine ⟨gFound, gs, rfl, ?_⟩
        rw [accumJoin_cons]
        exact hfp
      | cons r rs =>
        obtain ⟨g, gs2, heq, hgp⟩ :=
          ih (accumStep cur part) (some gFound) gs (by simp)
        exact ⟨g, gs2, heq, hgp⟩
    | none =>
      cases rest with
      | nil =>
        refine ⟨_, _, rfl, ?_⟩
        rw [accumJoin_cons]
        rfl
      | cons r rs =>
        obtain ⟨g, gs2, heq, hgp⟩ := ih (accumStep cur part) _ _ (by simp)
        exact ⟨g, gs2, heq, hgp⟩

/-- The group resolver always returns a node, and that node's full path is
determined by the group path alone, independent of the group store. -/
theorem ctgs_some (gs : GroupState) (path vis : String) :
    ∃ g gs2, create_target_group_structure gs path vis = (some g, gs2) ∧
      g.full_path = accumJoin "" (splitSlash path) := by
  exact ctgsAux_some vis (splitSlash path) "" none gs (splitSlash_ne_nil path)

/-- Full behavior of the group walk, for non-empty segments: every store
change is an append of newly created groups; each created group carries
the segment as both name and path and the call's source visibility; a
created group without a parent sits at the first level (its full path is
its own segment), and one with a parent id points at a stored node whose
full path is the created group's path prefix; afterwards every walked
prefix has a node in the store; and the returned node sits at the full
accumulated path. -/
theorem ctgsAux_spec (vis : String) :
    ∀ (parts : List String) (cur : String) (parent : Option GroupNode) (gs : GroupState),
      parts ≠ [] →
      (∀ s ∈ parts, s ≠ "") →
      (∀ pg, parent = some pg → pg ∈ gs.groups ∧ pg.full_path = cur ∧ cur ≠ "") →
      (parent = none → cur = "") →
      ∃ g gs2 created,
        ctgsAux vis parts cur parent gs = (some g, gs2) ∧
        gs2.groups = gs.groups ++ created ∧
        g ∈ gs2.groups ∧
        g.full_path = accumJoin cur parts ∧
        (∀ c ∈ created, c.name = c.path ∧ c.visibility = vis ∧
          (c.parent_id = none → c.full_path = c.path) ∧
          (∀ pid, c.parent_id = some pid → ∃ pnode, pnode ∈ gs2.groups ∧
            pnode.id = pid ∧ c.full_path = pnode.full_path ++ "/" ++ c.path)) ∧
        (∀ k, 0 < k → k ≤ parts.length → ∃ nd, nd ∈ gs2.groups ∧
          nd.full_path = accumJoin cur (parts.take k)) := by
  intro parts
  induction parts with
  | nil => intro _ _ _ h _ _ _; exact absurd rfl h
  | cons part rest ih =>
    intro cur parent gs _ hseg hpar hpar0
    have hpartne : part ≠ "" := hseg part (List.mem_cons_self _ _)
    have hcur2ne : accumStep cur part ≠ "" := by
      unfold accumStep
      split_ifs with hc
      · exact hpartne
      · intro hcontra
        have hd : (cur ++ "/" ++ part).data = [] := by rw [hcontra]
        simp at hd
    rw [ctgsAux.eq_def]
    dsimp only
    cases hf : gs.groups.find? (fun g => g.full_path = accumStep cur part) with
    | some gFound =>
      have hfp : gFound.full_path = accumStep cur part := by
        have hpred := List.find?_some hf
        exact of_decide_eq_true hpred
      have hfmem : gFound ∈ gs.groups := List.mem_of_find?_eq_some hf
      cases rest with
      | nil =>
        refine ⟨gFound, gs, [], rfl, by simp, hfmem, by rw [accumJoin_cons]; exact hfp,
          by simp, ?_⟩
        intro k hk1 hk2
        simp only [List.length_cons, List.length_nil] at hk2
        have hk : k = 1 := by omega
        subst hk
        exact ⟨gFound, hfmem, hfp⟩
      | cons r rs =>
        obtain ⟨g, gs2, created, heq, hgroups, hmem, hgp, hcreated, hcover⟩ :=
          ih (accumStep cur part) (some gFound) gs (by simp)
            (fun s hs => hseg s (List.mem_cons_of_mem _ hs))
            (fun pg hpg => by cases hpg; exact ⟨hfmem, hfp, hcur2ne⟩)
            (fun hco => by cases hco)
        refine ⟨g, gs2, created, heq, hgroups, hmem, hgp, hcreated, ?_⟩
        intro k hk1 hk2
        cases k with
        | zero => omega
        | succ j =>
          cases j with
          | zero =>
            refine ⟨gFound, ?_, hfp⟩
            rw [hgroups]
            exact List.mem_append_left _ hfmem
          | succ i =>
            have hcov := hcover (i + 1) (by omega) (by simp at hk2 ⊢; omega)
            simpa [accumJoin_cons] using hcov
    | none =>
      cases hparent : parent with
      | none =>
        have hcur : cur = "" := hpar0 hparent
        subst hcur
        cases rest with
        | nil =>
          refine ⟨_, _, [_], rfl, rfl, ?_, ?_, ?_, ?_⟩
          · exact List.mem_append_right _ (List.mem_singleton_self _)
          · rw [accumJoin_cons]; rfl
          · intro c hc
            rw [List.mem_singleton] at hc
            subst hc
            refine ⟨rfl, rfl, ?_, ?_⟩
            · intro _
              rfl
            · intro pid hp
              cases hp
          · intro k hk1 hk2
            simp only [List.length_cons, List.length_nil] at hk2
            have hk : k = 1 := by omega
            subst hk
            exact ⟨_, List.mem_append_right _ (List.mem_singleton_self _), rfl⟩
        | cons r rs =>
          obtain ⟨g, gs2, created, heq, hgroups, hmem, hgp, hcreated, hcover⟩ :=
            ih (accumStep "" part) (some
                { id := gs.nextId, name := part, path := part,
                  full_path := accumStep "" part, visibility := vis, parent_id := none })
              { groups := gs.groups ++
                  [{ id := gs.nextId, name := part, path := part,
                     full_path := accumStep "" part, visibility := vis, parent_id := none }],
                nextId := gs.nextId + 1 } (by simp)
              (fun s hs => hseg s (List.mem_cons_of_mem _ hs))
              (fun pg hpg => by
                cases hpg
                exact ⟨List.mem_append_right _ (List.mem_singleton_self _), rfl, hcur2ne⟩)
              (fun hco => by cases hco)
          refine ⟨g, gs2,
            { id := gs.nextId, name := part, path := part,
              full_path := accumStep "" part, visibility := vis,
              parent_id := none } :: created,
            heq, ?_, hmem, hgp, ?_, ?_⟩
          · rw [hgroups]; simp
          · intro c hc
            rcases List.mem_cons.mp hc with hc | hc
            · subst hc
              refine ⟨rfl, rfl, ?_, ?_⟩
              · intro _
                rfl
              · intro pid hp
                cases hp
            · exact hcreated c hc
          · intro k hk1 hk2
            cases k with
            | zero => omega
            | succ j =>
              cases j with
              | zero =>
                refine ⟨⟨gs.nextId, part, part, accumStep "" part, vis, none⟩, ?_, rfl⟩
                rw [hgroups]
                exact List.mem_append_left _ (List.mem_append_right _ (List.mem_singleton_self _))
              | succ i =>
                have hcov := hcover (i + 1) (by omega) (by simp at hk2 ⊢; omega)
                simpa [accumJoin_cons] using hcov
      | some pg =>
        obtain ⟨hpm, hpf, hcne⟩ := hpar pg hparent
        have hfull : accumStep cur part = pg.full_path ++ "/" ++ part := by
          unfold accumStep
          rw [if_neg hcne, hpf]
        cases rest with
        | nil =>
          refine ⟨_, _, [_], rfl, rfl, ?_, ?_, ?_, ?_⟩
          · exact List.mem_append_right _ (List.mem_singleton_self _)
          · rw [accumJoin_cons]; rfl
          · intro c hc
            rw [List.mem_singleton] at hc
            subst hc
            refine ⟨rfl, rfl, ?_, ?_⟩
            · intro hp
              cases hp
            · intro pid hp
              refine ⟨pg, List.mem_append_left _ hpm, ?_, hfull⟩
              cases hp
              rfl
          · intro k hk1 hk2
            simp only [List.length_cons, List.length_nil] at hk2
            have hk : k = 1 := by omega
            subst hk
            exact ⟨_, List.mem_append_right _ (List.mem_singleton_self _), rfl⟩
        | cons r rs =>
          obtain ⟨g, gs2, created, heq, hgroups, hmem, hgp, hcreated, hcover⟩ :=
            ih (accumStep cur part) (some
                { id := gs.nextId, name := part, path := part,
                  full_path := accumStep cur part, visibility := vis,
                  parent_id := some pg.id })
              { groups := gs.groups ++
                  [{ id := gs.nextId, name := part, path := part,
                     full_path := accumStep cur part, visibility := vis,
                     parent_id := some pg.id }],
                nextId := gs.nextId + 1 } (by simp)
              (fun s hs => hseg s (List.mem_cons_of_mem _ hs))
              (fun pgx hpg => by
                cases hpg
                exact ⟨List.mem_append_right _ (List.mem_singleton_self _), rfl, hcur2ne⟩)
              (fun hco => by cases hco)
          refine ⟨g, gs2,
            { id := gs.nextId, name := part, path := part,
              full_path := accumStep cur part, visibility := vis,
              parent_id := some pg.id } :: created,
            heq, ?_, hmem, hgp, ?_, ?_⟩
          · rw [hgroups]; simp
          · intro c hc
            rcases List.mem_cons.mp hc with hc | hc
            · subst hc
              refine ⟨rfl, rfl, ?_, ?_⟩
              · intro hp
                cases hp
              · intro pid hp
                refine ⟨pg, ?_, ?_, hfull⟩
                · rw [hgroups]
                  exact List.mem_append_left _ (List.mem_append_left _ hpm)
                · cases hp
                  rfl
            · exact hcreated c hc
          · intro k hk1 hk2
            cases k with
            | zero => omega
            | succ j =>
              cases j with
              | zero =>
                refine ⟨⟨gs.nextId, part, part, accumStep cur part, vis, some pg.id⟩, ?_, rfl⟩
                rw [hgroups]
                exact List.mem_append_left _ (List.mem_append_right _ (List.mem_singleton_self _))
              | succ i =>
                have hcov := hcover (i + 1) (by omega) (by simp at hk2 ⊢; omega)
                simpa [accumJoin_cons] using hcov

mutual
/-- Without overwrite, a whole tree run only grows the target project
store. -/
theorem mg_grow (fuel t0 : Nat) (t : SrcTree) (path : String) (segs : List String)
    (st : List String) (gs : GroupState) (d : RunData)
    (h : migrate_group fuel t0 false t path segs st gs = some d) :
    ∀ x ∈ st, x ∈ d.state := by
  cases t with
  | node seg vis projects subs =>
    simp only [migrate_group] at h
    rcases hct : create_target_group_structure gs path vis with ⟨og, gs1⟩
    rw [hct] at h
    cases og with
    | none => cases h
    | some tg =>
      dsimp only at h
      split at h
      · cases h
      · split at h
        · cases h
        · next d2 hms =>
          injection h with h
          subst h
          intro x hx
          exact ms_grow fuel t0 subs path segs _ gs1 d2 hms x
            (runProjects_grow fuel t0 tg.full_path projects st x hx)

/-- Without overwrite, a subgroup sweep only grows the target project
store. -/
theorem ms_grow (fuel t0 : Nat) (subs : List SrcTree) (path : String)
    (segs : List String) (st : List String) (gs : GroupState) (d : RunData)
    (h : migrate_subs fuel t0 false subs path segs st gs = some d) :
    ∀ x ∈ st, x ∈ d.state := by
  cases subs with
  | nil =>
    simp only [migrate_subs] at h
    injection h with h
    subst h
    exact fun x hx => hx
  | cons s rest =>
    simp only [migrate_subs] at h
    split at h
    · cases h
    · next d1 h1 =>
      split at h
      · cases h
      · next d2 h2 =>
        injection h with h
        subst h
        intro x hx
        exact ms_grow fuel t0 rest path segs d1.state d1.gstate d2 h2 x
          (mg_grow fuel t0 s (path ++ "/" ++ s.seg) (segs ++ [s.seg]) st gs d1 h1 x hx)
end

/-- Every segment path lies under itself. -/
theorem underSegs_refl (p : List String) : underSegs p p = true := by
  unfold underSegs
  rw [List.take_length]
  simp

/-- Lying under an extended path implies lying under the original path. -/
theorem underSegs_extend (p : List String) (s : String) (q : List String)
    (h : underSegs (p ++ [s]) q = true) : underSegs p q = true := by
  unfold underSegs at h ⊢
  rw [decide_eq_true_eq] at h ⊢
  have hq : q.take p.length = (q.take ((p ++ [s]).length)).take p.length := by
    rw [List.take_take]
    congr 1
    simp
  rw [hq, h]
  exact List.take_left p [s]

mutual
/-- Structure of a finished tree run: the per-group reports follow the
source tree's pre-order spine (each group visited exactly once, each
project handed to exactly one batch, outcome ids in listing order); each
group's logged counts tally exactly the migrated outcomes as successes
and everything else as failures, summing to the group's project count,
with no diverged outcome collected; every trace event lies under the root
path; and the trace is the root's own batch — entered, drained project by
project, then marked done — followed by the subgroup traces in listing
order, each consisting only of events under that subgroup's path. -/
theorem mg_sound (fuel t0 : Nat) (ow : Bool) (t : SrcTree) (path : String)
    (segs : List String) (st : List String) (gs : GroupState) (d : RunData)
    (h : migrate_group fuel t0 ow t path segs st gs = some d) :
    d.groups.map (fun gr => (gr.segs, gr.outcomes.map (fun po => po.1))) = spine segs t ∧
    (∀ gr ∈ d.groups,
      gr.successCount = (gr.outcomes.filter fun po => isMigrated po.2).length ∧
      gr.failedCount = (gr.outcomes.filter fun po => !isMigrated po.2).length ∧
      gr.successCount + gr.failedCount = gr.outcomes.length ∧
      ∀ po ∈ gr.outcomes, po.2.result ≠ PyResult.diverge) ∧
    (∀ e ∈ d.trace, underSegs segs (eventSegs e) = true) ∧
    (∃ parts : List (List Event),
      d.trace = Event.groupEnter segs ::
        (((t.projects.map fun p => p.id).map fun pid => Event.projectDone segs pid) ++
          ([Event.batchDone segs] ++ parts.flatten)) ∧
      List.Forall₂ (fun evs s => ∀ e ∈ evs,
        underSegs (segs ++ [SrcTree.seg s]) (eventSegs e) = true) parts t.subs) := by
  cases t with
  | node seg vis projects subs =>
    simp only [migrate_group] at h
    rcases hct : create_target_group_structure gs path vis with ⟨og, gs1⟩
    rw [hct] at h
    cases og with
    | none => cases h
    | some tg =>
      dsimp only at h
      split at h
      · cases h
      · next hdiv =>
        split at h
        · cases h
        · next d2 hms =>
          injection h with h
          subst h
          obtain ⟨hspine2, hcounts2, hunder2, parts2, htrace2, hparts2⟩ :=
            ms_sound fuel t0 ow subs path segs _ gs1 d2 hms
          have hnd : ∀ po ∈ (runProjects fuel t0 tg.full_path ow projects st).1,
              po.2.result ≠ PyResult.diverge := by
            intro po hpo hcon
            apply hdiv
            rw [List.any_eq_true]
            exact ⟨po, hpo, by rw [hcon]; simp⟩
          have hids := runProjects_ids fuel t0 tg.full_path ow projects st
          obtain ⟨hc1, hc2, hc3⟩ :=
            tally_counts (runProjects fuel t0 tg.full_path ow projects st).1 hnd
          refine ⟨?_, ?_, ?_, ?_⟩
          · dsimp only
            simp only [spine]
            rw [List.map_cons]
            congr 1
            rw [hids]
          · intro gr hgr
            rcases List.mem_cons.mp hgr with hgr | hgr
            · subst hgr
              exact ⟨hc1, hc2, hc3, hnd⟩
            · exact hcounts2 gr hgr
          · intro e he
            dsimp only at he
            rcases List.mem_cons.mp he with he | he
            · subst he; exact underSegs_refl segs
            · rcases List.mem_append.mp he with he | he
              · rcases List.mem_append.mp he with he | he
                · obtain ⟨po, _, hpo⟩ := List.mem_map.mp he
                  subst hpo
                  exact underSegs_refl segs
                · rw [List.mem_singleton] at he
                  subst he
                  exact underSegs_refl segs
              · exact hunder2 e he
          · refine ⟨parts2, ?_, hparts2⟩
            dsimp only
            rw [htrace2]
            simp only [SrcTree.projects, List.cons_append, List.append_assoc, ← hids,
              List.map_map]
            rfl

/-- Structure of a finished subgroup sweep: reports follow the spine of
the subgroup list, counts are sound for each visited group, all events lie
under the parent path, and the trace is the concatenation of the subgroup
traces in listing order, each under its own subgroup path. -/
theorem ms_sound (fuel t0 : Nat) (ow : Bool) (subs : List SrcTree) (path : String)
    (segs : List String) (st : List String) (gs : GroupState) (d : RunData)
    (h : migrate_subs fuel t0 ow subs path segs st gs = some d) :
    d.groups.map (fun gr => (gr.segs, gr.outcomes.map (fun po => po.1))) =
      spineList segs subs ∧
    (∀ gr ∈ d.groups,
      gr.successCount = (gr.outcomes.filter fun po => isMigrated po.2).length ∧
      gr.failedCount = (gr.outcomes.filter fun po => !isMigrated po.2).length ∧
      gr.successCount + gr.failedCount = gr.outcomes.length ∧
      ∀ po ∈ gr.outcomes, po.2.result ≠ PyResult.diverge) ∧
    (∀ e ∈ d.trace, underSegs segs (eventSegs e) = true) ∧
    (∃ parts : List (List Event),
      d.trace = parts.flatten ∧
      List.Forall₂ (fun evs s => ∀ e ∈ evs,
        underSegs (segs ++ [SrcTree.seg s]) (eventSegs e) = true) parts subs) := by
  cases subs with
  | nil =>
    simp only [migrate_subs] at h
    injection h with h
    subst h
    exact ⟨by simp [spineList], by simp, by simp, [], rfl, List.Forall₂.nil⟩
  | cons s rest =>
    simp only [migrate_subs] at h
    split at h
    · cases h
    · next d1 h1 =>
      split at h
      · cases h
      · next d2 h2 =>
        injection h with h
        subst h
        obtain ⟨hspine1, hcounts1, hunder1, parts1, htrace1, hparts1⟩ :=
          mg_sound fuel t0 ow s (path ++ "/" ++ s.seg) (segs ++ [s.seg]) st gs d1 h1
        obtain ⟨hspine2, hcounts2, hunder2, parts2, htrace2, hparts2⟩ :=
          ms_sound fuel t0 ow rest path segs d1.state d1.gstate d2 h2
        refine ⟨?_, ?_, ?_, ?_⟩
        · dsimp only
          simp only [spineList]
          rw [List.map_append, hspine1, hspine2]
        · intro gr hgr
          dsimp only at hgr
          rcases List.mem_append.mp hgr with hgr | hgr
          · exact hcounts1 gr hgr
          · exact hcounts2 gr hgr
        · intro e he
          dsimp only at he
          rcases List.mem_append.mp he with he | he
          · exact underSegs_extend segs s.seg _ (hunder1 e he)
          · exact hunder2 e he
        · refine ⟨d1.trace :: parts2, ?_, ?_⟩
          · dsimp only
            rw [List.flatten_cons, htrace2]
          · exact List.Forall₂.cons (fun e he => hunder1 e he) hparts2
end

/-- A pointwise-related list: every member of the right list has a
related member on the left. -/
theorem forall2_mem_right {α β : Type} {R : α → β → Prop} :
    ∀ {l1 : List α} {l2 : List β}, List.Forall₂ R l1 l2 →
      ∀ b ∈ l2, ∃ a ∈ l1, R a b := by
  intro l1 l2 h
  induction h with
  | nil => intro b hb; cases hb
  | @cons a b l1t l2t hr _ ih =>
    intro c hc
    rcases List.mem_cons.mp hc with hc | hc
    · subst hc
      exact ⟨a, List.mem_cons_self _ _, hr⟩
    · obtain ⟨x, hx, hrx⟩ := ih c hc
      exact ⟨x, List.mem_cons_of_mem _ hx, hrx⟩

/-- Pointwise relations concatenate. -/
theorem forall2_append {α β : Type} {R : α → β → Prop} :
    ∀ {l1 : List α} {l2 : List β} {u1 : List α} {u2 : List β},
      List.Forall₂ R l1 l2 → List.Forall₂ R u1 u2 →
      List.Forall₂ R (l1 ++ u1) (l2 ++ u2) := by
  intro l1 l2 u1 u2 h
  induction h with
  | nil => intro hu; exact hu
  | cons hr _ ih => intro hu; exact List.Forall₂.cons hr (ih hu)

mutual
/-- Idempotent rerun of a subtree: if a first run finished, a second run
without overwrite against any store containing the first run's final
store also finishes, visits the same groups with the same projects, skips
every project the first run migrated, migrates nothing, and only grows
the store. -/
theorem mg_idem (fuel t0 : Nat) (t : SrcTree) (path : String) (segs : List String)
    (st1 : List String) (gs1 : GroupState) (d1 : RunData)
    (h1 : migrate_group fuel t0 false t path segs st1 gs1 = some d1)
    (st2 : List String) (gs2 : GroupState)
    (hsub : ∀ x ∈ d1.state, x ∈ st2) :
    ∃ d2, migrate_group fuel t0 false t path segs st2 gs2 = some d2 ∧
      List.Forall₂ groupRel d1.groups d2.groups ∧
      (∀ x ∈ st2, x ∈ d2.state) := by
  cases t with
  | node seg vis projects subs =>
    simp only [migrate_group] at h1
    rcases hct1 : create_target_group_structure gs1 path vis with ⟨og1, gsA⟩
    rw [hct1] at h1
    cases og1 with
    | none => cases h1
    | some tg1 =>
      dsimp only at h1
      split at h1
      · cases h1
      · next hdiv1 =>
        split at h1
        · cases h1
        · next dB1 hms1 =>
          injection h1 with h1
          subst h1
          have hfp1 : tg1.full_path = accumJoin "" (splitSlash path) := by
            obtain ⟨g, gsX, heq, hgp⟩ := ctgs_some gs1 path vis
            rw [hct1] at heq
            injection heq with heq1 heq2
            injection heq1 with heq1
            rw [heq1]
            exact hgp
          obtain ⟨tg2, gsB, hct2, hfp2⟩ := ctgs_some gs2 path vis
          have hpath12 : tg2.full_path = tg1.full_path := by rw [hfp2, hfp1]
          have hnd1 : ∀ po ∈ (runProjects fuel t0 tg1.full_path false projects st1).1,
              po.2.result ≠ PyResult.diverge := by
            intro po hpo hcon
            apply hdiv1
            rw [List.any_eq_true]
            exact ⟨po, hpo, by rw [hcon]; simp⟩
          have hbatchsub :
              ∀ x ∈ (runProjects fuel t0 tg1.full_path false projects st1).2, x ∈ st2 := by
            intro x hx
            apply hsub
            dsimp only
            exact ms_grow fuel t0 subs path segs _ gsA dB1 hms1 x hx
          obtain ⟨hrel, hgrow2⟩ :=
            runProjects_round2 fuel t0 tg1.full_path projects st1 st2 hnd1 hbatchsub
          have hnd2 : ∀ po ∈ (runProjects fuel t0 tg1.full_path false projects st2).1,
              po.2.result ≠ PyResult.diverge := by
            intro po hpo
            obtain ⟨a, _, hr⟩ := forall2_mem_right hrel po hpo
            exact hr.2.2.2
          have hdiv2 : ¬(((runProjects fuel t0 tg1.full_path false projects st2).1.any
              fun po => po.2.result = PyResult.diverge) = true) := by
            intro hcon
            rw [List.any_eq_true] at hcon
            obtain ⟨po, hpo, hd⟩ := hcon
            exact hnd2 po hpo (of_decide_eq_true hd)
          obtain ⟨dB2, hms2, hrelB, hgrowB⟩ := ms_idem fuel t0 subs path segs _ gsA dB1 hms1
            (runProjects fuel t0 tg1.full_path false projects st2).2 gsB
            (fun x hx => hgrow2 x (hsub x hx))
          refine ⟨⟨⟨path, segs,
              (tally (runProjects fuel t0 tg1.full_path false projects st2).1).1,
              (tally (runProjects fuel t0 tg1.full_path false projects st2).1).2,
              (runProjects fuel t0 tg1.full_path false projects st2).1⟩ :: dB2.groups,
            (Event.groupEnter segs ::
              ((runProjects fuel t0 tg1.full_path false projects st2).1.map fun po =>
                Event.projectDone segs po.1) ++ [Event.batchDone segs]) ++ dB2.trace,
            dB2.state, dB2.gstate⟩, ?_, ?_, ?_⟩
          · simp only [migrate_group]
            rw [hct2]
            dsimp only
            rw [hpath12]
            rw [if_neg hdiv2]
            rw [hms2]
          · refine List.Forall₂.cons ?_ hrelB
            exact ⟨rfl, rfl, hrel.imp (fun a b hr => ⟨hr.1, hr.2.1, hr.2.2.1⟩)⟩
          · intro x hx
            dsimp only
            exact hgrowB x (hgrow2 x hx)

/-- Idempotent rerun of a subgroup sweep. -/
theorem ms_idem (fuel t0 : Nat) (subs : List SrcTree) (path : String) (segs : List String)
    (st1 : List String) (gs1 : GroupState) (d1 : RunData)
    (h1 : migrate_subs fuel t0 false subs path segs st1 gs1 = some d1)
    (st2 : List String) (gs2 : GroupState)
    (hsub : ∀ x ∈ d1.state, x ∈ st2) :
    ∃ d2, migrate_subs fuel t0 false subs path segs st2 gs2 = some d2 ∧
      List.Forall₂ groupRel d1.groups d2.groups ∧
      (∀ x ∈ st2, x ∈ d2.state) := by
  cases subs with
  | nil =>
    simp only [migrate_subs] at h1
    injection h1 with h1
    subst h1
    exact ⟨⟨[], [], st2, gs2⟩, by simp [migrate_subs], List.Forall₂.nil, fun x hx => hx⟩
  | cons s rest =>
    simp only [migrate_subs] at h1
    split at h1
    · cases h1
    · next dA1 hA1 =>
      split at h1
      · cases h1
      · next dB1 hB1 =>
        injection h1 with h1
        subst h1
        have hsubA : ∀ x ∈ dA1.state, x ∈ st2 := by
          intro x hx
          apply hsub
          dsimp only
          exact ms_grow fuel t0 rest path segs dA1.state dA1.gstate dB1 hB1 x hx
        obtain ⟨dA2, hA2, hrelA, hgrowA⟩ :=
          mg_idem fuel t0 s (path ++ "/" ++ s.seg) (segs ++ [s.seg]) st1 gs1 dA1 hA1
            st2 gs2 hsubA
        obtain ⟨dB2, hB2, hrelB, hgrowB⟩ :=
          ms_idem fuel t0 rest path segs dA1.state dA1.gstate dB1 hB1
            dA2.state dA2.gstate (fun x hx => hgrowA x (hsub x hx))
        refine ⟨⟨dA2.groups ++ dB2.groups, dA2.trace ++ dB2.trace,
            dB2.state, dB2.gstate⟩, ?_, ?_, ?_⟩
        · simp only [migrate_subs]
          rw [hA2]
          dsimp only
          rw [hB2]
        · dsimp only
          exact forall2_append hrelA hrelB
        · intro x hx
          dsimp only
          exact hgrowB x (hgrowA x hx)
end

/-- C5: whatever happens in a worker run, the target session's timeout is
back at its original value when the worker returns (the import call's
`except` and `finally` both restore it, and no other path touches it);
and whenever the run reaches the import call, the timeout in effect there
is the original raised to `max original 120` — hence at least 120
seconds — exactly when the export artifact exceeds the 200 MB threshold,
and the unchanged original otherwise. -/
theorem claim_C5_timeout_escalation (fuel t0 : Nat) (p : ProjInfo) (gpath : String)
    (ow : Bool) (st : List String) :
    (migrate_project fuel t0 p gpath ow st).finalTimeout = t0 ∧
    (∀ tv, (migrate_project fuel t0 p gpath ow st).importTimeout = some tv →
      (200 * MB < p.env.exportSizeBytes → tv = max t0 120 ∧ 120 ≤ tv) ∧
      (¬ 200 * MB < p.env.exportSizeBytes → tv = t0)) := by
  refine ⟨migrate_project_finalTimeout fuel t0 p gpath ow st, ?_⟩
  intro tv htv
  have h := migrate_project_importTimeout fuel t0 p gpath ow st tv htv
  constructor
  · intro hbig
    rw [if_pos hbig] at h
    exact ⟨h, by rw [h]; exact le_max_right _ _⟩
  · intro hsmall
    rw [if_neg hsmall] at h
    exact h

/-- Witness for C5 at a 250 MB artifact with a successful import: that
one ran at timeout 120 and the session is back at 30 afterwards. -/
theorem claim_C5_timeout_escalation_witness :
    200 * MB < bigEnv.exportSizeBytes ∧
    (migrate_project 1 30 { id := 1, name := "p", env := bigEnv } "g" false []).importTimeout =
      some 120 ∧
    (migrate_project 1 30 { id := 1, name := "p", env := bigEnv } "g" false []).finalTimeout = 30 ∧
    (120 = max 30 120 ∧ 120 ≤ 120) := by
  have h := claim_C5_timeout_escalation 1 30 { id := 1, name := "p", env := bigEnv } "g" false []
  have hbig : 200 * MB < bigEnv.exportSizeBytes := by decide
  have hit : (migrate_project 1 30 { id := 1, name := "p", env := bigEnv } "g" false
      []).importTimeout = some 120 := by decide
  exact ⟨hbig, hit, h.1, (h.2 120 hit).1 hbig⟩

/-- C2 (failing input): with the target name lookup finding nothing and
the fetch of the full source project raising, the exception reaches the
worker's outer handler before `thread_project` was bound; the handler's
log f-string itself raises, and the exception escapes `migrate_project`
instead of being converted to a `FAILED` outcome. -/
theorem claim_C2_fetch_error_escapes :
    (migrate_project 1 30 { id := 1, name := "p", env := fetchErrEnv } "g" false []).result =
      PyResult.exn "UnboundLocalError: thread_project" := by
  decide

/-- C6 (counterexample): canonical path `"q"` differs from the name
`"p"`, the path lookup raises something other than not-found, overwrite
is enabled, and the import would succeed — yet the worker returns `None`
after logging the path-check error, never reaching the import call and
leaving the target store untouched; the claimed log-and-still-migrate
behavior does not happen at CHECK_PATH. -/
theorem claim_C6_counterexample :
    pathErrEnv.pathLookupErr = some "boom" ∧
    pathErrEnv.importResult = Except.ok (ImportHandle.obj 7 none) ∧
    (migrate_project 2 30 { id := 1, name := "p", env := pathErrEnv } "g" true []).result =
      PyResult.ok none ∧
    LogEvent.pathCheckErr "boom" ∈
      (migrate_project 2 30 { id := 1, name := "p", env := pathErrEnv } "g" true []).log ∧
    (migrate_project 2 30 { id := 1, name := "p", env := pathErrEnv } "g" true
      []).importTimeout = none ∧
    (migrate_project 2 30 { id := 1, name := "p", env := pathErrEnv } "g" true []).state = [] :=
  ⟨rfl, rfl, by decide, by decide, by decide, by decide⟩

/-- C6 (amended): when the canonical path differs from the listing name
and the name check proceeded, a path lookup error other than not-found
makes the worker return `None` with the error logged, regardless of the
overwrite flag — the migration is not attempted (the import call is never
reached and the store is left as the name check left it).  The
log-and-still-migrate behavior of CHECK_NAME is not repeated at
CHECK_PATH. -/
theorem claim_C6_amended (fuel t0 : Nat) (p : ProjInfo) (gpath : String) (ow : Bool)
    (st : List String) (m1 : MidState) (msg : String)
    (hcn : checkNamePhase t0 p.env p.name (gpath ++ "/" ++ p.name) ow
      { st := st, log := [LogEvent.startMigrate p.name] } = Sum.inr m1)
    (hf : p.env.fetchErr = none)
    (hdp : p.env.fpath ≠ p.name)
    (hpe : p.env.pathLookupErr = some msg) :
    (migrate_project fuel t0 p gpath ow st).result = PyResult.ok none ∧
    LogEvent.pathCheckErr msg ∈ (migrate_project fuel t0 p gpath ow st).log ∧
    (migrate_project fuel t0 p gpath ow st).importTimeout = none ∧
    (migrate_project fuel t0 p gpath ow st).state = m1.st := by
  simp only [migrate_project]
  rw [hcn]
  dsimp only
  rw [hf]
  dsimp only
  rw [checkPathPhase_err t0 p.env p.name p.env.fpath _ ow m1 msg hdp hpe]
  refine ⟨rfl, ?_, rfl, rfl⟩
  simp [earlyOut]

/-- Witness for the amended C6 with overwrite enabled. -/
theorem claim_C6_amended_witness :
    (migrate_project 2 30 { id := 1, name := "p", env := pathErrEnv } "g" true []).result =
      PyResult.ok none ∧
    LogEvent.pathCheckErr "boom" ∈
      (migrate_project 2 30 { id := 1, name := "p", env := pathErrEnv } "g" true []).log ∧
    (migrate_project 2 30 { id := 1, name := "p", env := pathErrEnv } "g" true
      []).importTimeout = none := by
  have h := claim_C6_amended 2 30 { id := 1, name := "p", env := pathErrEnv } "g" true []
    { st := [], log := [LogEvent.startMigrate "p", LogEvent.notFoundProceed "p"] } "boom"
    (by decide) rfl (by decide) rfl
  exact ⟨h.1, h.2.1, h.2.2.1⟩

/-- C7 (counterexample): the import call returns a bare-identifier dict;
the worker refetches the full object, which carries `import_status`
`started` then `failed` — the dict handle is not treated as immediately
finished after the refetch: the refetched object is polled and the
project ends `FAILED` (`None` with the import-failure log), not
migrated. -/
theorem claim_C7_counterexample :
    dictPollEnv.importResult = Except.ok (ImportHandle.dict (some 7)) ∧
    (migrate_project 3 30 { id := 1, name := "p", env := dictPollEnv } "g" false []).result =
      PyResult.ok none ∧
    LogEvent.importFailedLog "p" ∈
      (migrate_project 3 30 { id := 1, name := "p", env := dictPollEnv } "g" false []).log :=
  ⟨rfl, by decide, by decide⟩

/-- C7 (amended): once the checks pass and the export finishes, a
non-raising import call's outcome is determined by the returned handle:
an object handle is polled on its own `import_status` until `finished`
(migrated) or `failed` (`FAILED`), with a missing status field meaning
immediately finished; a dict handle without a usable id is `FAILED`; and
a dict handle with an id is refetched into a full object which is then
subject to the same polling — it is treated as immediately finished only
when the refetched object lacks the status field. -/
theorem claim_C7_amended (fuel t0 : Nat) (p : ProjInfo) (gpath : String) (ow : Bool)
    (st : List String) (m1 m2 : MidState) (handle : ImportHandle)
    (hcn : checkNamePhase t0 p.env p.name (gpath ++ "/" ++ p.name) ow
      { st := st, log := [LogEvent.startMigrate p.name] } = Sum.inr m1)
    (hf : p.env.fetchErr = none)
    (hcp : checkPathPhase t0 p.env p.name p.env.fpath (gpath ++ "/" ++ p.env.fpath) ow m1 =
      Sum.inr m2)
    (hw : waitJob fuel p.env.exportStatus 0 = some true)
    (hi : p.env.importResult = Except.ok handle) :
    (migrate_project fuel t0 p gpath ow st).result =
      (match handle with
        | ImportHandle.dict pid =>
          if pid.getD 0 = 0 then PyResult.ok none
          else
            (match pollImport fuel p.env.refetchStatus with
              | none => PyResult.diverge
              | some false => PyResult.ok none
              | some true => PyResult.ok (some (pid.getD 0)))
        | ImportHandle.obj pid status =>
          (match pollImport fuel status with
            | none => PyResult.diverge
            | some false => PyResult.ok none
            | some true => PyResult.ok (some pid))) := by
  simp only [migrate_project]
  rw [hcn]
  dsimp only
  rw [hf]
  dsimp only
  rw [hcp]
  dsimp only
  cases handle with
  | dict pid =>
    exact eip_import_result fuel t0 p.env p.name p.env.fname
      (gpath ++ "/" ++ p.env.fpath) m2 (ImportHandle.dict pid) hw hi
  | obj pid status =>
    exact eip_import_result fuel t0 p.env p.name p.env.fname
      (gpath ++ "/" ++ p.env.fpath) m2 (ImportHandle.obj pid status) hw hi

/-- Witness for the amended C7: a status-free object handle is migrated
immediately. -/
theorem claim_C7_amended_witness :
    (migrate_project 1 30 demoProj "g" false []).result = PyResult.ok (some 7) := by
  have h := claim_C7_amended 1 30 demoProj "g" false []
    { st := [], log := [LogEvent.startMigrate "p", LogEvent.notFoundProceed "p"] }
    { st := [], log := [LogEvent.startMigrate "p", LogEvent.notFoundProceed "p"] }
    (ImportHandle.obj 7 none) (by decide) rfl (by decide) rfl rfl
  exact h

/-- C1 (counterexample): a group whose only project already exists on the
target, without overwrite, is skipped — and the run's per-group tally is
`(success, failed) = (0, 1)`: the skipped project is counted as a
failure, not excluded from both counts (the worker returns `None` for
skips and failures alike, and the coordinator counts every falsy result
as failed). -/
theorem claim_C1_counterexample :
    (migrate_group 1 30 false demoTree "g" ["g"] ["g/p"] gs0).map (fun d =>
      (d.groups.map fun gr => (gr.successCount, gr.failedCount),
       d.groups.all fun gr => gr.outcomes.all fun po => isSkipped po.2)) =
      some ([(0, 1)], true) := by
  simp only [migrate_group, migrate_subs, demoTree, gs0]
  decide

/-- C1 (amended): in every finished run, each group's `success_count`
counts exactly the outcomes that returned a project, and `failed_count`
counts every other outcome — skipped projects included: a skipped outcome
returned `None`, so it is excluded from `success_count` but contributes
to `failed_count`. -/
theorem claim_C1_amended (fuel t0 : Nat) (ow : Bool) (t : SrcTree) (path : String)
    (segs : List String) (st : List String) (gs : GroupState) (d : RunData)
    (h : migrate_group fuel t0 ow t path segs st gs = some d) :
    ∀ gr ∈ d.groups,
      gr.successCount = (gr.outcomes.filter fun po => isMigrated po.2).length ∧
      gr.failedCount = (gr.outcomes.filter fun po => !isMigrated po.2).length ∧
      ∀ po ∈ gr.outcomes, isSkipped po.2 = true → isMigrated po.2 = false := by
  intro gr hgr
  obtain ⟨hc1, hc2, _, _⟩ := (mg_sound fuel t0 ow t path segs st gs d h).2.1 gr hgr
  refine ⟨hc1, hc2, ?_⟩
  intro po hpo hsk
  have hr := isSkipped_result po.2 hsk
  unfold isMigrated
  rw [hr]

/-- Witness for the amended C1 at the one-group demo run. -/
theorem claim_C1_amended_witness :
    ∃ d, migrate_group 1 30 false demoTree "g" ["g"] ["g/p"] gs0 = some d ∧
      ∀ gr ∈ d.groups,
        gr.successCount = (gr.outcomes.filter fun po => isMigrated po.2).length ∧
        gr.failedCount = (gr.outcomes.filter fun po => !isMigrated po.2).length ∧
        ∀ po ∈ gr.outcomes, isSkipped po.2 = true → isMigrated po.2 = false := by
  have hs : (migrate_group 1 30 false demoTree "g" ["g"] ["g/p"] gs0).isSome = true := by
    simp only [migrate_group, migrate_subs, demoTree, gs0]
    decide
  exact ⟨_, (Option.some_get hs).symm,
    claim_C1_amended 1 30 false demoTree "g" ["g"] ["g/p"] gs0 _ (Option.some_get hs).symm⟩

/-- C3: a second `migrate_tree` run without overwrite, over the unchanged
source, starting from the first run's final target state, also finishes,
visits the same groups with the same projects (`groupRel`), yields a
skipped outcome for every project the first run migrated (`outcomeRel`),
and migrates zero projects — idempotence derived purely from the
target-existence checks. -/
theorem claim_C3_idempotent_rerun (fuel t0 : Nat) (t : SrcTree) (path : String)
    (segs : List String) (st : List String) (gs : GroupState) (d1 : RunData)
    (h1 : migrate_group fuel t0 false t path segs st gs = some d1) :
    ∃ d2, migrate_group fuel t0 false t path segs d1.state d1.gstate = some d2 ∧
      List.Forall₂ groupRel d1.groups d2.groups ∧
      (∀ gr2 ∈ d2.groups, ∀ po ∈ gr2.outcomes, isMigrated po.2 = false) := by
  obtain ⟨d2, h2, hrel, _⟩ :=
    mg_idem fuel t0 t path segs st gs d1 h1 d1.state d1.gstate (fun x hx => hx)
  refine ⟨d2, h2, hrel, ?_⟩
  intro gr2 hgr2 po hpo
  obtain ⟨gr1, _, hgrel⟩ := forall2_mem_right hrel gr2 hgr2
  obtain ⟨a, _, hrel2⟩ := forall2_mem_right hgrel.2.2 po hpo
  exact hrel2.2.2

/-- Witness for C3: the demo tree migrated from an empty target, then
rerun from the resulting state. -/
theorem claim_C3_idempotent_rerun_witness :
    ∃ d1, migrate_group 1 30 false demoTree "g" ["g"] [] gs0 = some d1 ∧
      ∃ d2, migrate_group 1 30 false demoTree "g" ["g"] d1.state d1.gstate = some d2 ∧
        List.Forall₂ groupRel d1.groups d2.groups ∧
        (∀ gr2 ∈ d2.groups, ∀ po ∈ gr2.outcomes, isMigrated po.2 = false) := by
  have hs : (migrate_group 1 30 false demoTree "g" ["g"] [] gs0).isSome = true := by
    simp only [migrate_group, migrate_subs, demoTree, gs0]
    decide
  exact ⟨_, (Option.some_get hs).symm,
    claim_C3_idempotent_rerun 1 30 demoTree "g" ["g"] [] gs0 _ (Option.some_get hs).symm⟩

/-- C8: one finished run visits exactly the tree's groups in pre-order,
handing each group's direct projects to exactly one batch (the per-group
reports equal the tree's spine, so with distinct group paths and distinct
project ids on the source side every group is visited exactly once and
every project appears exactly once in the aggregate outcome set), and
each group's `success_count + failed_count` equals the number of its
projects, so every project of the group — in particular every non-skipped
one — is accounted for in exactly one of the two counts. -/
theorem claim_C8_tree_coverage (fuel t0 : Nat) (ow : Bool) (t : SrcTree) (path : String)
    (segs : List String) (st : List String) (gs : GroupState) (d : RunData)
    (h : migrate_group fuel t0 ow t path segs st gs = some d)
    (hgnd : ((spine segs t).map (fun x => x.1)).Nodup)
    (hpnd : ((spine segs t).map (fun x => x.2)).flatten.Nodup) :
    d.groups.map (fun gr => (gr.segs, gr.outcomes.map fun po => po.1)) = spine segs t ∧
    (d.groups.map (fun gr => gr.segs)).Nodup ∧
    (d.groups.map (fun gr => gr.outcomes.map fun po => po.1)).flatten.Nodup ∧
    (∀ gr ∈ d.groups, gr.successCount + gr.failedCount = gr.outcomes.length) := by
  obtain ⟨hspine, hcounts, _, _⟩ := mg_sound fuel t0 ow t path segs st gs d h
  refine ⟨hspine, ?_, ?_, fun gr hgr => (hcounts gr hgr).2.2.1⟩
  · have hm : d.groups.map (fun gr => gr.segs) = (spine segs t).map (fun x => x.1) := by
      rw [← hspine, List.map_map]
      rfl
    rw [hm]
    exact hgnd
  · have hm : d.groups.map (fun gr => gr.outcomes.map fun po => po.1) =
        (spine segs t).map (fun x => x.2) := by
      rw [← hspine, List.map_map]
      rfl
    rw [hm]
    exact hpnd

/-- Witness for C8 at the two-level demo tree. -/
theorem claim_C8_tree_coverage_witness :
    ∃ d, migrate_group 2 30 false demoTree2 "g" ["g"] [] gs0 = some d ∧
      d.groups.map (fun gr => (gr.segs, gr.outcomes.map fun po => po.1)) =
        spine ["g"] demoTree2 ∧
      (d.groups.map (fun gr => gr.segs)).Nodup ∧
      (d.groups.map (fun gr => gr.outcomes.map fun po => po.1)).flatten.Nodup ∧
      (∀ gr ∈ d.groups, gr.successCount + gr.failedCount = gr.outcomes.length) := by
  have hs : (migrate_group 2 30 false demoTree2 "g" ["g"] [] gs0).isSome = true := by
    simp only [migrate_group, migrate_subs, demoTree2, demoProj, demoProjQ, gs0]
    decide
  have hgnd : ((spine ["g"] demoTree2).map (fun x => x.1)).Nodup := by
    simp only [spine, spineList, demoTree2, demoProj, demoProjQ]
    decide
  have hpnd : ((spine ["g"] demoTree2).map (fun x => x.2)).flatten.Nodup := by
    simp only [spine, spineList, demoTree2, demoProj, demoProjQ]
    decide
  exact ⟨_, (Option.some_get hs).symm,
    claim_C8_tree_coverage 2 30 false demoTree2 "g" ["g"] [] gs0 _
      (Option.some_get hs).symm hgnd hpnd⟩

/-- C9: in every finished run's event trace, the root group's batch is
fully drained — the batch is entered, every one of its projects reaches a
terminal outcome, and the batch is marked done — before any event of any
subgroup occurs, and the subgroup subtraces follow in listing order,
strictly sequentially: the trace decomposes as the root's own events
followed by one contiguous block per direct subgroup, in order, each
block containing only events of groups at or below that subgroup's
path. -/
theorem claim_C9_depth_first_order (fuel t0 : Nat) (ow : Bool) (t : SrcTree) (path : String)
    (segs : List String) (st : List String) (gs : GroupState) (d : RunData)
    (h : migrate_group fuel t0 ow t path segs st gs = some d) :
    ∃ parts : List (List Event),
      d.trace = Event.groupEnter segs ::
        (((t.projects.map fun p => p.id).map fun pid => Event.projectDone segs pid) ++
          ([Event.batchDone segs] ++ parts.flatten)) ∧
      List.Forall₂ (fun evs s => ∀ e ∈ evs,
        underSegs (segs ++ [SrcTree.seg s]) (eventSegs e) = true) parts t.subs :=
  (mg_sound fuel t0 ow t path segs st gs d h).2.2.2

/-- Witness for C9 at the two-level demo tree. -/
theorem claim_C9_depth_first_order_witness :
    ∃ d, migrate_group 2 30 false demoTree2 "g" ["g"] [] gs0 = some d ∧
      ∃ parts : List (List Event),
        d.trace = Event.groupEnter ["g"] ::
          (((demoTree2.projects.map fun p => p.id).map fun pid =>
              Event.projectDone ["g"] pid) ++
            ([Event.batchDone ["g"]] ++ parts.flatten)) ∧
        List.Forall₂ (fun evs s => ∀ e ∈ evs,
          underSegs (["g"] ++ [SrcTree.seg s]) (eventSegs e) = true) parts demoTree2.subs := by
  have hs : (migrate_group 2 30 false demoTree2 "g" ["g"] [] gs0).isSome = true := by
    simp only [migrate_group, migrate_subs, demoTree2, demoProj, demoProjQ, gs0]
    decide
  exact ⟨_, (Option.some_get hs).symm,
    claim_C9_depth_first_order 2 30 false demoTree2 "g" ["g"] [] gs0 _
      (Option.some_get hs).symm⟩

/-- C4: for a slash-separated group path with non-empty segments, the
resolver walks the prefixes left to right — every change to the group
store is an append of newly created groups; each created group has its
segment as both name and path and carries the source group's visibility
passed into the call, at every depth (a single visibility for the whole
walk, not re-derived per subgroup); a created group has no parent exactly
at the first level, and otherwise its parent id points at the stored node
of the previous level (the created group's full path extends the parent's
by its own segment); after the call every prefix of the path has a node
in the store; and the returned node is the one at the final full path. -/
theorem claim_C4_group_resolver (gs : GroupState) (path vis : String)
    (hseg : ∀ s ∈ splitSlash path, s ≠ "") :
    ∃ g gs2 created,
      create_target_group_structure gs path vis = (some g, gs2) ∧
      gs2.groups = gs.groups ++ created ∧
      g ∈ gs2.groups ∧
      g.full_path = accumJoin "" (splitSlash path) ∧
      (∀ c ∈ created, c.name = c.path ∧ c.visibility = vis ∧
        (c.parent_id = none → c.full_path = c.path) ∧
        (∀ pid, c.parent_id = some pid → ∃ pnode, pnode ∈ gs2.groups ∧
          pnode.id = pid ∧ c.full_path = pnode.full_path ++ "/" ++ c.path)) ∧
      (∀ k, 0 < k → k ≤ (splitSlash path).length → ∃ nd, nd ∈ gs2.groups ∧
        nd.full_path = accumJoin "" ((splitSlash path).take k)) :=
  ctgsAux_spec vis (splitSlash path) "" none gs (splitSlash_ne_nil path) hseg
    (fun _ hpg => by cases hpg) (fun _ => rfl)

/-- Witness for C4 on the two-segment path `a/b` over an empty store. -/
theorem claim_C4_group_resolver_witness :
    (∀ s ∈ splitSlash "a/b", s ≠ "") ∧
    ∃ g gs2 created,
      create_target_group_structure gs0 "a/b" "private" = (some g, gs2) ∧
      gs2.groups = gs0.groups ++ created ∧
      g ∈ gs2.groups ∧
      g.full_path = accumJoin "" (splitSlash "a/b") ∧
      (∀ c ∈ created, c.name = c.path ∧ c.visibility = "private" ∧
        (c.parent_id = none → c.full_path = c.path) ∧
        (∀ pid, c.parent_id = some pid → ∃ pnode, pnode ∈ gs2.groups ∧
          pnode.id = pid ∧ c.full_path = pnode.full_path ++ "/" ++ c.path)) ∧
      (∀ k, 0 < k → k ≤ (splitSlash "a/b").length → ∃ nd, nd ∈ gs2.groups ∧
        nd.full_path = accumJoin "" ((splitSlash "a/b").take k)) :=
  ⟨by decide, claim_C4_group_resolver gs0 "a/b" "private" (by decide)⟩
